import Mathlib

/-!
Verification development for the bank-statement extraction-and-staging
pipeline of the budget-app ai-service.

The Python sources are shallowly embedded as executable Lean definitions:
  * `JsonVal` models the values produced by `json.loads`;
  * `normalize_date` models `StatementExtractor._normalize_date`
    (statement_extractor.py), including the CPython `strptime` behaviour of
    the ten listed formats;
  * the response normalizer, the staging-store routes, the duplicate
    detector, the import committer and the document-processing orchestrator
    follow in later sections.

Machine floats of the source are modelled as exact rationals; Python
`datetime.strftime("%Y-%m-%d")` is modelled as zero-padded rendering.
-/

/-- Values produced by parsing JSON, as Python `json.loads` would
(dicts are association lists; numbers are modelled as exact rationals). -/
inductive JsonVal where
  | null : JsonVal
  | bool (b : Bool) : JsonVal
  | num (q : ℚ) : JsonVal
  | str (s : String) : JsonVal
  | arr (elts : List JsonVal) : JsonVal
  | obj (fields : List (String × JsonVal)) : JsonVal
deriving Repr

/-- Python truthiness (`bool(v)`) on JSON values: `None`, `False`, `0`,
empty string, empty list and empty dict are falsy. -/
def pyTruthy : JsonVal → Bool
  | .null => false
  | .bool b => b
  | .num q => q ≠ 0
  | .str s => s ≠ ""
  | .arr l => ¬ l.isEmpty
  | .obj l => ¬ l.isEmpty

/-- Python `d.get(key, default)` on a parsed-JSON dict.  `json.loads`
produces unique keys, so first-match lookup is adequate. -/
def jsonGet (kvs : List (String × JsonVal)) (k : String) (dflt : JsonVal) : JsonVal :=
  match kvs.find? (fun kv => kv.1 == k) with
  | some kv => kv.2
  | none => dflt

/-- Python `s.lower()` (ASCII case, the only case exercised here). -/
def pyLower (s : String) : String := String.mk (s.data.map Char.toLower)

/-- Python `s.upper()` (ASCII case, the only case exercised here). -/
def pyUpper (s : String) : String := String.mk (s.data.map Char.toUpper)

/-- Characters Python `str.strip()` removes. -/
def pyIsSpace (c : Char) : Bool :=
  c = ' ' || c = '\t' || c = '\n' || c = '\r' || c = '\x0b' || c = '\x0c'

/-- Python `s.strip()` on a character list. -/
def pyStrip (l : List Char) : List Char :=
  ((l.dropWhile pyIsSpace).reverse.dropWhile pyIsSpace).reverse

/-- Value of a decimal digit character. -/
def digitVal (c : Char) : Nat := c.toNat - '0'.toNat

/-- Python `float(str)` for plain decimal literals: optional surrounding
whitespace, optional sign, digits with an optional fractional part.
(Exponent/inf/nan literal forms never arise in the statements proved here.) -/
def pyParseFloat (s : String) : Option ℚ :=
  let l := pyStrip s.toList
  let (neg, l) : Bool × List Char :=
    match l with
    | '-' :: rest => (true, rest)
    | '+' :: rest => (false, rest)
    | _ => (false, l)
  let intPart := l.takeWhile Char.isDigit
  let rest := l.dropWhile Char.isDigit
  let (fracPart, rest) : List Char × List Char :=
    match rest with
    | '.' :: r => (r.takeWhile Char.isDigit, r.dropWhile Char.isDigit)
    | _ => ([], rest)
  if intPart.isEmpty ∧ fracPart.isEmpty then none
  else if ¬ rest.isEmpty then none
  else
    let iv : Nat := intPart.foldl (fun acc c => acc * 10 + digitVal c) 0
    let fv : Nat := fracPart.foldl (fun acc c => acc * 10 + digitVal c) 0
    let den : Nat := 10 ^ fracPart.length
    let num : Int := iv * den + fv
    some (mkRat (if neg then -num else num) den)

/-- Python `float(v)` on a JSON value: numbers pass through, booleans give
0/1, numeric strings parse; anything else raises ValueError/TypeError,
modelled as `none`. -/
def pyFloat : JsonVal → Option ℚ
  | .num q => some q
  | .bool b => some (if b then 1 else 0)
  | .str s => pyParseFloat s
  | _ => none

/-! ## Date normalization (`StatementExtractor._normalize_date`) -/

/-- A calendar date as produced by a successful `datetime.strptime`. -/
structure YMD where
  y : Nat
  m : Nat
  d : Nat
deriving Repr, DecidableEq

/-- Gregorian leap-year test, as `datetime` applies it. -/
def isLeap (y : Nat) : Bool := y % 4 = 0 && (y % 100 ≠ 0 || y % 400 = 0)

/-- Days in a month, as `datetime` validates them. -/
def daysInMonth (y m : Nat) : Nat :=
  if m = 2 then (if isLeap y then 29 else 28)
  else if m = 4 ∨ m = 6 ∨ m = 9 ∨ m = 11 then 30
  else 31

/-- The range checks `datetime(year, month, day)` performs inside
`strptime`; a failure raises ValueError, modelled as `none`. -/
def mkDate (y m d : Nat) : Option YMD :=
  if 1 ≤ y ∧ y ≤ 9999 ∧ 1 ≤ m ∧ m ≤ 12 ∧ 1 ≤ d ∧ d ≤ daysInMonth y m then
    some ⟨y, m, d⟩
  else none

/-- CPython `strptime` `%m`/`%d` directive: one or two digits, greedy. -/
def parse12 : List Char → Option (Nat × List Char)
  | a :: b :: rest =>
      if a.isDigit then
        if b.isDigit then some (digitVal a * 10 + digitVal b, rest)
        else some (digitVal a, b :: rest)
      else none
  | [a] => if a.isDigit then some (digitVal a, []) else none
  | [] => none

/-- CPython `strptime` `%Y` directive: exactly four digits. -/
def parse4 : List Char → Option (Nat × List Char)
  | a :: b :: c :: d :: rest =>
      if a.isDigit && b.isDigit && c.isDigit && d.isDigit then
        some (digitVal a * 1000 + digitVal b * 100 + digitVal c * 10 + digitVal d, rest)
      else none
  | _ => none

/-- CPython `strptime` `%y` directive: exactly two digits, mapped to
1969–2068. -/
def parse2y : List Char → Option (Nat × List Char)
  | a :: b :: rest =>
      if a.isDigit && b.isDigit then
        let v := digitVal a * 10 + digitVal b
        some (if v ≤ 68 then 2000 + v else 1900 + v, rest)
      else none
  | _ => none

/-- Consume one expected literal character. -/
def expectChar (c : Char) : List Char → Option (List Char)
  | a :: rest => if a = c then some rest else none
  | [] => none

/-- A whitespace run in a `strptime` format matches one or more whitespace
characters. -/
def parseWs1 : List Char → Option (List Char)
  | a :: rest => if pyIsSpace a then some (rest.dropWhile pyIsSpace) else none
  | [] => none

/-- Full month names recognized by `%B` (matched case-insensitively). -/
def monthFull : List (String × Nat) :=
  [("january", 1), ("february", 2), ("march", 3), ("april", 4), ("may", 5),
   ("june", 6), ("july", 7), ("august", 8), ("september", 9), ("october", 10),
   ("november", 11), ("december", 12)]

/-- Abbreviated month names recognized by `%b` (matched case-insensitively). -/
def monthAbbr : List (String × Nat) :=
  [("jan", 1), ("feb", 2), ("mar", 3), ("apr", 4), ("may", 5), ("jun", 6),
   ("jul", 7), ("aug", 8), ("sep", 9), ("oct", 10), ("nov", 11), ("dec", 12)]

/-- Match a month name from a table, case-insensitively, consuming it. -/
def parseMonthName (tbl : List (String × Nat)) (l : List Char) : Option (Nat × List Char) :=
  tbl.findSome? (fun nv =>
    if (l.take nv.1.length).map Char.toLower = nv.1.toList then
      some (nv.2, l.drop nv.1.length)
    else none)

/-- Formats `"%m/%d/%Y"` and `"%m-%d-%Y"` (the separator is `sep`),
returning the raw (year, month, day); the whole string must be consumed. -/
def fmt_mdY (sep : Char) (l : List Char) : Option (Nat × Nat × Nat) := do
  let (m, l) ← parse12 l
  let l ← expectChar sep l
  let (d, l) ← parse12 l
  let l ← expectChar sep l
  let (y, l) ← parse4 l
  if l.isEmpty then some (y, m, d) else none

/-- Formats `"%m/%d/%y"` and `"%m-%d-%y"`. -/
def fmt_mdy (sep : Char) (l : List Char) : Option (Nat × Nat × Nat) := do
  let (m, l) ← parse12 l
  let l ← expectChar sep l
  let (d, l) ← parse12 l
  let l ← expectChar sep l
  let (y, l) ← parse2y l
  if l.isEmpty then some (y, m, d) else none

/-- Format `"%d/%m/%Y"`. -/
def fmt_dmY (sep : Char) (l : List Char) : Option (Nat × Nat × Nat) := do
  let (d, l) ← parse12 l
  let l ← expectChar sep l
  let (m, l) ← parse12 l
  let l ← expectChar sep l
  let (y, l) ← parse4 l
  if l.isEmpty then some (y, m, d) else none

/-- Format `"%d/%m/%y"`. -/
def fmt_dmy (sep : Char) (l : List Char) : Option (Nat × Nat × Nat) := do
  let (d, l) ← parse12 l
  let l ← expectChar sep l
  let (m, l) ← parse12 l
  let l ← expectChar sep l
  let (y, l) ← parse2y l
  if l.isEmpty then some (y, m, d) else none

/-- Formats `"%B %d, %Y"` and `"%b %d, %Y"` (month table `tbl`). -/
def fmt_BdY (tbl : List (String × Nat)) (l : List Char) : Option (Nat × Nat × Nat) := do
  let (m, l) ← parseMonthName tbl l
  let l ← parseWs1 l
  let (d, l) ← parse12 l
  let l ← expectChar ',' l
  let l ← parseWs1 l
  let (y, l) ← parse4 l
  if l.isEmpty then some (y, m, d) else none

/-- Formats `"%d %B %Y"` and `"%d %b %Y"`. -/
def fmt_dBY (tbl : List (String × Nat)) (l : List Char) : Option (Nat × Nat × Nat) := do
  let (d, l) ← parse12 l
  let l ← parseWs1 l
  let (m, l) ← parseMonthName tbl l
  let l ← parseWs1 l
  let (y, l) ← parse4 l
  if l.isEmpty then some (y, m, d) else none

/-- The ordered format list of `_normalize_date`; each format's raw result
passes through the `datetime` range checks (`mkDate`), and a range failure
falls through to the next format exactly as the per-format
`except ValueError: continue` does. -/
def tryFormats (l : List Char) : Option YMD :=
  [fmt_mdY '/' l, fmt_mdy '/' l, fmt_dmY '/' l, fmt_dmy '/' l,
   fmt_mdY '-' l, fmt_mdy '-' l,
   fmt_BdY monthFull l, fmt_BdY monthAbbr l,
   fmt_dBY monthFull l, fmt_dBY monthAbbr l].findSome?
    (fun o => o.bind (fun ymd => mkDate ymd.1 ymd.2.1 ymd.2.2))

/-- The anchored regex `^\d{4}-\d{2}-\d{2}$` of `_normalize_date`
(`$` also accepts one trailing newline). -/
def isIsoShape : List Char → Bool
  | [a, b, c, d, e, f, g, h, i, j] =>
      a.isDigit && b.isDigit && c.isDigit && d.isDigit && e = '-' &&
      f.isDigit && g.isDigit && h = '-' && i.isDigit && j.isDigit
  | [a, b, c, d, e, f, g, h, i, j, k] =>
      a.isDigit && b.isDigit && c.isDigit && d.isDigit && e = '-' &&
      f.isDigit && g.isDigit && h = '-' && i.isDigit && j.isDigit && k = '\n'
  | _ => false

/-- Two-digit zero-padded rendering (`%m`, `%d` of `strftime`). -/
def pad2 (n : Nat) : List Char := [Nat.digitChar (n / 10 % 10), Nat.digitChar (n % 10)]

/-- Four-digit zero-padded rendering (`%Y` of `strftime`). -/
def pad4 (n : Nat) : List Char :=
  [Nat.digitChar (n / 1000 % 10), Nat.digitChar (n / 100 % 10),
   Nat.digitChar (n / 10 % 10), Nat.digitChar (n % 10)]

/-- Rendering `dt.strftime("%Y-%m-%d")`. -/
def fmtIso (ymd : YMD) : String :=
  String.mk (pad4 ymd.y ++ '-' :: (pad2 ymd.m ++ '-' :: pad2 ymd.d))

/-- Embedding of `StatementExtractor._normalize_date` on strings. -/
def normalize_date (s : String) : String :=
  if s = "" then ""
  else if isIsoShape s.toList then s
  else
    match tryFormats (pyStrip s.toList) with
    | some ymd => fmtIso ymd
    | none => s

/-! ## Locating the structured block (`_parse_llm_response`, step 1) -/

/-- The code's block locator: the leftmost-greedy match of the regex
`\x7b[\s\S]*\x7d` in `re.search`, i.e. the span from the first opening
brace to the last closing brace, provided that closing brace lies after
the opening one. -/
def extractJsonSpan (s : String) : Option String :=
  match s.toList.dropWhile (fun c => c ≠ '{') with
  | [] => none
  | _ :: rest =>
      match rest.reverse.dropWhile (fun c => c ≠ '}') with
      | [] => none
      | r => some (String.mk ('{' :: r.reverse))

/-- Depth-counting scan for the matching closing brace, starting at an
opening brace.  `acc` is the reversed prefix consumed so far. -/
def scanBlock : Nat → List Char → List Char → Option (List Char)
  | _, _, [] => none
  | depth, acc, c :: cs =>
      if c = '{' then scanBlock (depth + 1) (c :: acc) cs
      else if c = '}' then
        (if depth = 1 then some (c :: acc).reverse else scanBlock (depth - 1) (c :: acc) cs)
      else scanBlock depth (c :: acc) cs

/-- Modelled from the spec: "the first balanced brace-delimited structured
block in the text" — the block that starts at the first opening brace and
ends at its matching closing brace.  Stated only to compare with the
code's `extractJsonSpan`. -/
def firstBalancedBlock (s : String) : Option String :=
  match s.toList.dropWhile (fun c => c ≠ '{') with
  | [] => none
  | l => (scanBlock 0 [] l).map String.mk

/-! ## A small executable model of `json.loads`

The parser is fuel-indexed (fuel bounds nesting depth); `jsonLoads` runs it
with enough fuel for any input.  String escapes cover the JSON basic
escapes; `\uXXXX` decodes the code unit directly. -/

/-- Whitespace skipped between JSON tokens. -/
def jsWs (l : List Char) : List Char :=
  l.dropWhile (fun c => c = ' ' || c = '\t' || c = '\n' || c = '\r')

/-- Hex digit value, if any. -/
def hexVal (c : Char) : Option Nat :=
  if c.isDigit then some (digitVal c)
  else if 'a' ≤ c ∧ c ≤ 'f' then some (c.toNat - 'a'.toNat + 10)
  else if 'A' ≤ c ∧ c ≤ 'F' then some (c.toNat - 'A'.toNat + 10)
  else none

/-- Parse the body of a JSON string (after the opening quote). -/
def jsString : List Char → List Char → Option (String × List Char)
  | acc, '"' :: rest => some (String.mk acc.reverse, rest)
  | acc, '\\' :: e :: rest =>
      match e with
      | '"' => jsString ('"' :: acc) rest
      | '\\' => jsString ('\\' :: acc) rest
      | '/' => jsString ('/' :: acc) rest
      | 'n' => jsString ('\n' :: acc) rest
      | 't' => jsString ('\t' :: acc) rest
      | 'r' => jsString ('\r' :: acc) rest
      | 'b' => jsString ('\x08' :: acc) rest
      | 'f' => jsString ('\x0c' :: acc) rest
      | 'u' =>
          match rest with
          | h1 :: h2 :: h3 :: h4 :: rest' => do
              let v1 ← hexVal h1
              let v2 ← hexVal h2
              let v3 ← hexVal h3
              let v4 ← hexVal h4
              jsString (Char.ofNat (((v1 * 16 + v2) * 16 + v3) * 16 + v4) :: acc) rest'
          | _ => none
      | _ => none
  | acc, c :: rest => if c.val < 32 then none else jsString (c :: acc) rest
  | _, [] => none

/-- Parse a JSON number (integer part, optional fraction, optional
exponent) into an exact rational. -/
def jsNumber (l : List Char) : Option (ℚ × List Char) :=
  let (neg, l1) : Bool × List Char :=
    match l with
    | '-' :: rest => (true, rest)
    | _ => (false, l)
  let intPart := l1.takeWhile Char.isDigit
  let l2 := l1.dropWhile Char.isDigit
  if intPart.isEmpty then none else
  let (fracPart, l3) : List Char × List Char :=
    match l2 with
    | '.' :: r => (r.takeWhile Char.isDigit, r.dropWhile Char.isDigit)
    | _ => ([], l2)
  if l2 ≠ l3 ∧ fracPart.isEmpty then none else
  let den : Nat := 10 ^ fracPart.length
  let mag : Nat :=
    (intPart.foldl (fun acc c => acc * 10 + digitVal c) 0) * den +
      fracPart.foldl (fun acc c => acc * 10 + digitVal c) 0
  let num : Int := if neg then -(mag : Int) else (mag : Int)
  match l3 with
  | 'e' :: r | 'E' :: r =>
      let (esign, r1) : Bool × List Char :=
        match r with
        | '-' :: rr => (true, rr)
        | '+' :: rr => (false, rr)
        | _ => (false, r)
      let eDigits := r1.takeWhile Char.isDigit
      let r2 := r1.dropWhile Char.isDigit
      if eDigits.isEmpty then none
      else
        let e := eDigits.foldl (fun acc c => acc * 10 + digitVal c) 0
        some (if esign then mkRat num (den * 10 ^ e) else mkRat (num * ((10 ^ e : Nat) : Int)) den, r2)
  | _ => some (mkRat num den, l3)

mutual

/-- Fuel-indexed JSON value parser. -/
def jsValue : Nat → List Char → Option (JsonVal × List Char)
  | 0, _ => none
  | fuel + 1, l =>
      match jsWs l with
      | '{' :: rest => jsMembers fuel (jsWs rest) []
      | '[' :: rest => jsElements fuel (jsWs rest) []
      | '"' :: rest => (jsString [] rest).map (fun sr => (.str sr.1, sr.2))
      | 't' :: 'r' :: 'u' :: 'e' :: rest => some (.bool true, rest)
      | 'f' :: 'a' :: 'l' :: 's' :: 'e' :: rest => some (.bool false, rest)
      | 'n' :: 'u' :: 'l' :: 'l' :: rest => some (.null, rest)
      | l' => (jsNumber l').map (fun qr => (.num qr.1, qr.2))

/-- Object members, after the opening brace (first char already
whitespace-skipped).  `acc` holds parsed members in reverse. -/
def jsMembers : Nat → List Char → List (String × JsonVal) → Option (JsonVal × List Char)
  | 0, _, _ => none
  | _ + 1, '}' :: rest, acc => if acc.isEmpty then some (.obj [], rest) else none
  | fuel + 1, '"' :: rest, acc => do
      let (k, r1) ← jsString [] rest
      let r2 ← expectChar ':' (jsWs r1)
      let (v, r3) ← jsValue fuel r2
      match jsWs r3 with
      | ',' :: r4 => jsMembers fuel (jsWs r4) ((k, v) :: acc)
      | '}' :: r4 => some (.obj ((k, v) :: acc).reverse, r4)
      | _ => none
  | _, _, _ => none

/-- Array elements, after the opening bracket. -/
def jsElements : Nat → List Char → List JsonVal → Option (JsonVal × List Char)
  | 0, _, _ => none
  | _ + 1, ']' :: rest, acc => if acc.isEmpty then some (.arr [], rest) else none
  | fuel + 1, l, acc => do
      let (v, r1) ← jsValue fuel l
      match jsWs r1 with
      | ',' :: r2 => jsElements fuel (jsWs r2) (v :: acc)
      | ']' :: r2 => some (.arr (v :: acc).reverse, r2)
      | _ => none

end

/-- Model of `json.loads`: parse one JSON value and require only
whitespace to remain. -/
def jsonLoads (s : String) : Option JsonVal :=
  match jsValue (s.length + 1) s.toList with
  | some (v, rest) => if (jsWs rest).isEmpty then some v else none
  | none => none

/-- The top-level dict handed to `data.get(...)` in `_parse_llm_response`;
`none` models `json.JSONDecodeError` (or a non-dict top level, which the
matched span's leading brace rules out). -/
def jsonLoadsObj (s : String) : Option (List (String × JsonVal)) :=
  match jsonLoads s with
  | some (.obj kvs) => some kvs
  | _ => none

/-! ## The response normalizer (`StatementExtractor._parse_llm_response`) -/

/-- Embedding of the `ExtractedTransaction` dataclass.  Fields the code
stores without touching keep the raw JSON value; `date` and `type` are
strings by construction (`_normalize_date` / `.lower()`), `amount` and
`confidence` numbers by construction (`float(...)`). -/
structure ExtractedTransaction where
  date : String
  description : JsonVal
  original_description : JsonVal
  amount : ℚ
  type : String
  category : JsonVal
  confidence : ℚ
  line_number : Nat
deriving Repr

/-- Embedding of the `StatementInfo` dataclass (`null` models an absent
field, as `dict.get` without default returns `None`). -/
structure StatementInfo where
  bank_name : JsonVal := .null
  account_type : JsonVal := .null
  last_four : JsonVal := .null
  statement_start : JsonVal := .null
  statement_end : JsonVal := .null
deriving Repr

/-- Embedding of the `ExtractionResult` dataclass. -/
structure ExtractionResult where
  success : Bool
  statement_info : StatementInfo
  transactions : List ExtractedTransaction
  raw_llm_response : String
  error : Option String := none
  processing_time_ms : Nat := 0
deriving Repr

/-- What building one `ExtractedTransaction` in the per-entry `try` does:
succeed, raise ValueError/TypeError (caught: the entry is skipped), or
raise AttributeError (uncaught: the whole parse aborts). -/
inductive EntryOutcome where
  | ok (e : ExtractedTransaction)
  | skip
  | crash (msg : String)
deriving Repr

/-- Applying `_normalize_date` to the raw `t.get("date", "")` value: a
falsy value returns `""`, a truthy string is normalized, and a truthy
non-string raises TypeError inside `re.match` (caught, entry skipped). -/
def normDateVal : JsonVal → Option String
  | .str s => some (normalize_date s)
  | v => if pyTruthy v then none else some ""

/-- One iteration of the entry loop of `_parse_llm_response`, evaluating
the dataclass arguments in source order.  A non-dict entry or a present
non-string `type` raises AttributeError (`.get` / `.lower()`), which the
loop's `except (ValueError, TypeError)` does not catch. -/
def processEntry (idx : Nat) (t : JsonVal) : EntryOutcome :=
  match t with
  | .obj kvs =>
      match normDateVal (jsonGet kvs "date" (.str "")) with
      | none => .skip
      | some date =>
          let desc := jsonGet kvs "description" (.str "Unknown")
          let origDesc := jsonGet kvs "original_description" (jsonGet kvs "description" (.str ""))
          match pyFloat (jsonGet kvs "amount" (.num 0)) with
          | none => .skip
          | some amt =>
              match jsonGet kvs "type" (.str "expense") with
              | .str ty =>
                  match pyFloat (jsonGet kvs "confidence" (.num (mkRat 1 2))) with
                  | none => .skip
                  | some conf =>
                      .ok { date := date, description := desc,
                            original_description := origDesc, amount := |amt|,
                            type := pyLower ty, category := jsonGet kvs "category" .null,
                            confidence := conf, line_number := idx + 1 }
              | _ => .crash "AttributeError: object has no attribute lower"
  | _ => .crash "AttributeError: object has no attribute get"

/-- The entry loop: skipped entries are dropped, built entries are kept
exactly when `amount > 0` and `date` is non-empty, and an uncaught
exception aborts the whole loop (`.error`). -/
def parseEntries : Nat → List JsonVal → Except String (List ExtractedTransaction)
  | _, [] => .ok []
  | idx, t :: ts =>
      match processEntry idx t with
      | .crash m => .error m
      | .skip => parseEntries (idx + 1) ts
      | .ok e =>
          if 0 < e.amount ∧ e.date ≠ "" then
            (parseEntries (idx + 1) ts).map (fun rest => e :: rest)
          else parseEntries (idx + 1) ts

/-- Iterating `for t in data.get("transactions", [])`: a list iterates its
elements, a dict its keys, a string its characters; other values raise
TypeError, which nothing catches on this path. -/
def iterEntries : JsonVal → Except String (List JsonVal)
  | .arr l => .ok l
  | .obj kvs => .ok (kvs.map (fun kv => .str kv.1))
  | .str s => .ok (s.toList.map (fun c => .str (String.mk [c])))
  | _ => .error "TypeError: object is not iterable"

/-- Reading `data.get("statement_info", \x7b\x7d)` and its five `.get`
fields; a non-dict value raises AttributeError on the first `.get`. -/
def parseStatementInfo (data : List (String × JsonVal)) : Except String StatementInfo :=
  match jsonGet data "statement_info" (.obj []) with
  | .obj info =>
      .ok { bank_name := jsonGet info "bank_name" .null,
            account_type := jsonGet info "account_type" .null,
            last_four := jsonGet info "last_four" .null,
            statement_start := jsonGet info "statement_start" .null,
            statement_end := jsonGet info "statement_end" .null }
  | _ => .error "AttributeError: object has no attribute get"

/-- Embedding of `_parse_llm_response`, parameterized by the JSON parser
`pj` (instantiated with `jsonLoadsObj` for concrete runs).  The result is
the `ExtractionResult` the method returns, or `.error` for an exception
that escapes it (its own `try` catches only `json.JSONDecodeError`). -/
def parse_llm_response (pj : String → Option (List (String × JsonVal)))
    (response : String) : Except String ExtractionResult :=
  match extractJsonSpan response with
  | none =>
      .ok { success := false, statement_info := {}, transactions := [],
            raw_llm_response := response, error := some "No JSON found in LLM response" }
  | some span =>
      match pj span with
      | none =>
          .ok { success := false, statement_info := {}, transactions := [],
                raw_llm_response := response, error := some "Failed to parse JSON" }
      | some data =>
          match parseStatementInfo data with
          | .error e => .error e
          | .ok info =>
              match iterEntries (jsonGet data "transactions" (.arr [])) with
              | .error e => .error e
              | .ok entries =>
                  match parseEntries 0 entries with
                  | .error e => .error e
                  | .ok txns =>
                      .ok { success := true, statement_info := info, transactions := txns,
                            raw_llm_response := response }

/-- The tail of `StatementExtractor.extract`: the parse step runs inside
the method's `try`, whose `except Exception` converts an escaped exception
into a failed `ExtractionResult` with an `"Extraction failed: "` message. -/
def extractOutcome (pj : String → Option (List (String × JsonVal)))
    (response : String) : ExtractionResult :=
  match parse_llm_response pj response with
  | .ok r => r
  | .error e =>
      { success := false, statement_info := {}, transactions := [],
        raw_llm_response := "", error := some ("Extraction failed: " ++ e) }

/-! ## Data model: persisted rows (`bank_documents`, `pending_transactions`,
`transactions`) -/

/-- Lifecycle states of a `bank_documents` row. -/
inductive DocStatus where
  | PENDING | PROCESSING | EXTRACTED | FAILED | IMPORTED
deriving Repr, DecidableEq

/-- Lifecycle states of a `pending_transactions` row. -/
inductive CandStatus where
  | PENDING | APPROVED | REJECTED | DUPLICATE | IMPORTED
deriving Repr, DecidableEq

/-- A `bank_documents` row (columns the core touches). -/
structure BankDocument where
  id : String
  userId : String
  filePath : String
  status : DocStatus
  extractedData : Option ExtractionResult := none
  transactionCount : Option Nat := none
  llmProvider : Option String := none
  llmModel : Option String := none
  processingTimeMs : Option Nat := none
  statementStartDate : JsonVal := .null
  statementEndDate : JsonVal := .null
  processingError : Option String := none
deriving Repr

/-- A `pending_transactions` row.  `userCategory`/`userNotes` are set only
by the update route (always from strings), so they are `Option String`;
`description`, `originalDescription` and `category` hold whatever JSON
value extraction produced. -/
structure PendingTransaction where
  id : String
  documentId : String
  date : String
  description : JsonVal
  originalDescription : JsonVal
  amount : ℚ
  type : String
  category : JsonVal
  confidence : ℚ
  lineNumber : Option Nat := none
  status : CandStatus
  userCategory : Option String := none
  userNotes : Option String := none
  duplicateOfId : Option String := none
  importedTransactionId : Option String := none
deriving Repr

/-- A `transactions` (canonical ledger) row, as the import committer
inserts it. -/
structure LedgerTransaction where
  id : String
  description : JsonVal
  amount : ℚ
  type : String
  category : JsonVal
  date : String
  budgetId : Option String
  userId : String
deriving Repr

/-- The persisted collections the routes read and write. -/
structure AppState where
  docs : List BankDocument
  cands : List PendingTransaction
  ledger : List LedgerTransaction
deriving Repr

/-- HTTP outcome: `.error (code, detail)` models a raised `HTTPException`,
`.ok` a JSON 200 response. -/
abbrev Http (α : Type) := Except (Nat × String) α

/-! ## Staging store and review operations (routes/transactions.py) -/

/-- The `TransactionUpdate` request body. -/
structure TransactionUpdate where
  category : Option String := none
  description : Option String := none
  amount : Option ℚ := none
  type : Option String := none
  notes : Option String := none

/-- Applying the built `UPDATE` statement of `update_transaction` to one
row: only supplied fields change, and `type` is stored upper-cased with no
validation. -/
def applyUpdate (u : TransactionUpdate) (c : PendingTransaction) : PendingTransaction :=
  { c with
    userCategory := match u.category with | some v => some v | none => c.userCategory
    description := match u.description with | some v => .str v | none => c.description
    amount := match u.amount with | some v => v | none => c.amount
    type := match u.type with | some v => pyUpper v | none => c.type
    userNotes := match u.notes with | some v => some v | none => c.userNotes }

/-- Embedding of `PUT /\x7btransaction_id\x7d` (`update_transaction`). -/
def update_transaction (st : AppState) (transaction_id : String)
    (u : TransactionUpdate) : AppState × Http Unit :=
  match st.cands.find? (fun c => c.id == transaction_id) with
  | none => (st, .error (404, "Transaction not found"))
  | some row =>
      if row.status = .IMPORTED then (st, .error (400, "Cannot modify imported transaction"))
      else
        ({ st with cands := st.cands.map (fun c =>
            if c.id == transaction_id then applyUpdate u c else c) }, .ok ())

/-- Embedding of `POST /\x7btransaction_id\x7d/approve`: the guarded
`UPDATE ... WHERE status = 'PENDING' RETURNING id` plus the 400 when no
row matched. -/
def approve_transaction (st : AppState) (transaction_id : String) : AppState × Http Unit :=
  let st' := { st with cands := st.cands.map (fun c =>
    if c.id == transaction_id && c.status == .PENDING then { c with status := .APPROVED } else c) }
  if st.cands.any (fun c => c.id == transaction_id && c.status == .PENDING) then (st', .ok ())
  else (st', .error (400, "Transaction not found or not in pending status"))

/-- Embedding of `POST /\x7btransaction_id\x7d/reject`: allowed from
`PENDING` or `APPROVED`. -/
def reject_transaction (st : AppState) (transaction_id : String) : AppState × Http Unit :=
  let st' := { st with cands := st.cands.map (fun c =>
    if c.id == transaction_id && (c.status == .PENDING || c.status == .APPROVED) then
      { c with status := .REJECTED } else c) }
  if st.cands.any (fun c => c.id == transaction_id && (c.status == .PENDING || c.status == .APPROVED)) then
    (st', .ok ())
  else (st', .error (400, "Transaction not found or cannot be rejected"))

/-- Embedding of `POST /bulk` (`bulk_action`). -/
def bulk_action (st : AppState) (transaction_ids : List String) (action : String) :
    AppState × Http Unit :=
  if transaction_ids.isEmpty then (st, .error (400, "No transaction IDs provided"))
  else if action = "delete" then
    ({ st with cands := st.cands.filter (fun c =>
        ¬ (transaction_ids.contains c.id ∧ c.status ≠ .IMPORTED)) }, .ok ())
  else if action = "approve" ∨ action = "reject" then
    let newStatus : CandStatus := if action = "approve" then .APPROVED else .REJECTED
    ({ st with cands := st.cands.map (fun c =>
        if transaction_ids.contains c.id && (c.status == .PENDING || c.status == .APPROVED) then
          { c with status := newStatus } else c) }, .ok ())
  else (st, .error (400, "Invalid action: " ++ action))

/-! ## Import committer (`POST /import`, `import_transactions`) -/

/-- Response body of a successful import. -/
structure ImportResp where
  imported_count : Nat
  transaction_ids : List String
deriving Repr, DecidableEq

/-- Category resolution of the import loop:
`p[6] if p[6] else p[5] or "Other"` under Python truthiness (`None` and
`""` are falsy). -/
def finalCategory (userCat : Option String) (cat : JsonVal) : JsonVal :=
  match userCat with
  | some s =>
      if s ≠ "" then .str s
      else if pyTruthy cat then cat else .str "Other"
  | none => if pyTruthy cat then cat else .str "Other"

/-- The ledger row one import-loop iteration inserts:
`final_type = "expense" if p[4] == 'EXPENSE' else "income"`. -/
def mkLedgerRow (budgetId : Option String) (userId : String) (nid : String)
    (p : PendingTransaction) : LedgerTransaction :=
  { id := nid, description := p.description, amount := p.amount,
    type := if p.type = "EXPENSE" then "expense" else "income",
    category := finalCategory p.userCategory p.category,
    date := p.date, budgetId := budgetId, userId := userId }

/-- The status flip one import-loop iteration performs on the candidate. -/
def markImported (nid : String) (c : PendingTransaction) : PendingTransaction :=
  { c with status := .IMPORTED, importedTransactionId := some nid }

/-- The `for p in pending:` loop of `import_transactions`: per approved
candidate, insert a ledger row (`uuid4` modelled by `fresh`) and flip that
candidate to `IMPORTED` with the new id recorded. -/
def runImportLoop (budgetId : Option String) (userId : String) (fresh : Nat → String) :
    Nat → List PendingTransaction → List LedgerTransaction → List PendingTransaction →
    List LedgerTransaction × List PendingTransaction
  | _, [], ledger, cands => (ledger, cands)
  | i, p :: ps, ledger, cands =>
      runImportLoop budgetId userId fresh (i + 1) ps
        (ledger ++ [mkLedgerRow budgetId userId (fresh i) p])
        (cands.map (fun c => if c.id == p.id then markImported (fresh i) c else c))

/-- Embedding of `POST /import` (`import_transactions`). -/
def import_transactions (st : AppState) (document_id : String)
    (budget_id : Option String) (fresh : Nat → String) : AppState × Http ImportResp :=
  match st.docs.find? (fun d => d.id == document_id) with
  | none => (st, .error (404, "Document not found"))
  | some doc =>
      let approved := st.cands.filter
        (fun c => c.documentId == document_id && c.status == .APPROVED)
      if approved.isEmpty then (st, .error (400, "No approved transactions to import"))
      else
        let lc := runImportLoop budget_id doc.userId fresh 0 approved st.ledger st.cands
        ({ docs := st.docs.map (fun d =>
              if d.id == document_id then { d with status := .IMPORTED } else d),
           cands := lc.2, ledger := lc.1 },
         .ok { imported_count := approved.length,
               transaction_ids := (List.range approved.length).map fresh })

/-! ## Duplicate detector (`POST /check-duplicates`) -/

/-- Report returned by the duplicate check. -/
structure DupReport where
  total_checked : Nat
  duplicates_found : Nat
deriving Repr, DecidableEq

/-- The ledger query of `check_duplicates`: same user, identical date,
amount within 0.01 (strict). -/
def matchesFor (ledger : List LedgerTransaction) (userId : String)
    (p : PendingTransaction) : List LedgerTransaction :=
  ledger.filter (fun t => t.userId == userId && t.date == p.date &&
    |t.amount - p.amount| < 1 / 100)

/-- The marking loop: each flagged pending id gets status `DUPLICATE` and a
link to the first matched ledger row. -/
def markDuplicates (cands : List PendingTransaction) (dups : List (String × String)) :
    List PendingTransaction :=
  dups.foldl (fun cs pr => cs.map (fun c =>
    if c.id == pr.1 then { c with status := .DUPLICATE, duplicateOfId := some pr.2 } else c)) cands

/-- Embedding of `POST /check-duplicates` (`check_duplicates`). -/
def check_duplicates (st : AppState) (document_id user_id : String) :
    AppState × DupReport :=
  let pending := st.cands.filter
    (fun c => c.documentId == document_id && c.status == .PENDING)
  let dups := pending.filterMap (fun p =>
    match matchesFor st.ledger user_id p with
    | [] => none
    | m :: _ => some (p.id, m.id))
  ({ st with cands := markDuplicates st.cands dups },
   { total_checked := pending.length, duplicates_found := dups.length })

/-! ## Extraction backends (providers/registry.py) and the document
orchestrator (routes/documents.py) -/

/-- A constructed provider instance: registry key, display name, model. -/
structure ProviderM where
  key : String
  name : String
  model : String
deriving Repr, DecidableEq

/-- Embedding of `create_llm_provider`: the name is lower-cased and an
unknown name falls back to the mock provider.  `models` supplies each
provider's configured model identifier. -/
def create_llm_provider (models : String → String) (provider_name : String) : ProviderM :=
  let k := pyLower provider_name
  if k = "ollama" then { key := "ollama", name := "Ollama", model := models "ollama" }
  else if k = "openai" then { key := "openai", name := "OpenAI", model := models "openai" }
  else { key := "mock", name := "Mock", model := models "mock" }

/-- Result of `await provider.is_available()`: the mock provider always
answers true; the others are environment-dependent (`avail`). -/
def providerAvailable (avail : String → Bool) (p : ProviderM) : Bool :=
  if p.key = "mock" then true else avail p.key

/-- A raised Python exception: `HTTPException(code, detail)` or any other
exception carrying `str(e)`. -/
inductive PyExc where
  | http (code : Nat) (detail : String)
  | exc (msg : String)
deriving Repr, DecidableEq

/-- Python `str(e)`: a `starlette.HTTPException` renders as
`"<code>: <detail>"`. -/
def pyStrExc : PyExc → String
  | .http c d => toString c ++ ": " ++ d
  | .exc m => m

/-- The provider-selection step shared by the extract and process routes:
an explicitly requested provider is constructed and its availability
checked (raising `HTTPException(400, ...)` when unavailable); otherwise
the fallback chain's pick (`defaultProv`) is used. -/
def selectProvider (models : String → String) (avail : String → Bool)
    (defaultProv : ProviderM) (llm_provider : Option String) : Except PyExc ProviderM :=
  match llm_provider with
  | some p =>
      let prov := create_llm_provider models p
      if providerAvailable avail prov then .ok prov
      else .error (.http 400 ("Provider '" ++ p ++ "' is not available"))
  | none => .ok defaultProv

/-- Response body of the process route (fields the spec mentions). -/
structure ProcessResp where
  success : Bool
  provider : String
  model : String
  processing_time_ms : Nat
  transaction_count : Nat
  error : Option String
deriving Repr, DecidableEq

/-- Rendering a document status into the 400 message of the process
route. -/
def docStatusStr : DocStatus → String
  | .PENDING => "PENDING"
  | .PROCESSING => "PROCESSING"
  | .EXTRACTED => "EXTRACTED"
  | .FAILED => "FAILED"
  | .IMPORTED => "IMPORTED"

/-- One row of the pending-transaction insert loop of the success branch
(`type` is stored upper-cased, status `'PENDING'`). -/
def candRowOf (fresh : Nat → String) (docId : String) (i : Nat)
    (t : ExtractedTransaction) : PendingTransaction :=
  { id := fresh i, documentId := docId, date := t.date, description := t.description,
    originalDescription := t.original_description, amount := t.amount,
    type := pyUpper t.type, category := t.category, confidence := t.confidence,
    lineNumber := some t.line_number, status := .PENDING }

/-- The insert loop of the success branch of `process_document`. -/
def candRowsOf (fresh : Nat → String) (docId : String) :
    Nat → List ExtractedTransaction → List PendingTransaction
  | _, [] => []
  | i, t :: ts => candRowOf fresh docId i t :: candRowsOf fresh docId (i + 1) ts

/-- The `except Exception` branch of `process_document`: mark the document
`FAILED` with `str(e)` and re-raise as `HTTPException(500, ...)`. -/
def processFail (st : AppState) (docId : String) (e : PyExc) :
    AppState × Http ProcessResp :=
  ({ st with docs := st.docs.map (fun d =>
      if d.id == docId then { d with status := .FAILED, processingError := some (pyStrExc e) }
      else d) },
   .error (500, "Processing failed: " ++ pyStrExc e))

/-- Embedding of `POST /process/\x7bdocument_id\x7d` (`process_document`).
The environment-dependent steps are parameters: `models`/`avail` configure
the providers, `defaultProv` is the fallback chain's pick, `readFile` the
outcome of reading the stored PDF, `exres` the outcome of
`extractor.extract(pdf_bytes)` (which never raises), and `fresh` the
`uuid4` stream for inserted rows. -/
def process_document (st : AppState) (document_id : String) (llm_provider : Option String)
    (models : String → String) (avail : String → Bool) (defaultProv : ProviderM)
    (readFile : Except String Unit) (exres : ExtractionResult) (fresh : Nat → String) :
    AppState × Http ProcessResp :=
  match st.docs.find? (fun d => d.id == document_id) with
  | none => (st, .error (404, "Document not found"))
  | some doc =>
      if doc.status = .PENDING ∨ doc.status = .FAILED then
        let st1 := { st with docs := st.docs.map (fun d =>
          if d.id == document_id then { d with status := .PROCESSING } else d) }
        match readFile with
        | .error e => processFail st1 document_id (.exc e)
        | .ok _ =>
            match selectProvider models avail defaultProv llm_provider with
            | .error e => processFail st1 document_id e
            | .ok prov =>
                if exres.success then
                  ({ st1 with
                     docs := st1.docs.map (fun d =>
                       if d.id == document_id then
                         { d with
                           status := .EXTRACTED, extractedData := some exres,
                           transactionCount := some exres.transactions.length,
                           llmProvider := some prov.name, llmModel := some prov.model,
                           processingTimeMs := some exres.processing_time_ms,
                           statementStartDate := exres.statement_info.statement_start,
                           statementEndDate := exres.statement_info.statement_end }
                       else d),
                     cands := st1.cands ++ candRowsOf fresh document_id 0 exres.transactions },
                   .ok { success := true, provider := prov.name, model := prov.model,
                         processing_time_ms := exres.processing_time_ms,
                         transaction_count := exres.transactions.length, error := exres.error })
                else
                  ({ st1 with docs := st1.docs.map (fun d =>
                       if d.id == document_id then
                         { d with
                           status := .FAILED, processingError := exres.error,
                           llmProvider := some prov.name,
                           processingTimeMs := some exres.processing_time_ms }
                       else d) },
                   .ok { success := false, provider := prov.name, model := prov.model,
                         processing_time_ms := exres.processing_time_ms,
                         transaction_count := exres.transactions.length, error := exres.error })
      else (st, .error (400, "Document already processed (status: " ++ docStatusStr doc.status ++ ")"))

/-- Response body of the extract route (fields the claims mention). -/
structure ExtractResp where
  success : Bool
  provider : String
  model : String
  transaction_count : Nat
  error : Option String
deriving Repr, DecidableEq

/-- Embedding of `POST /extract` (`extract_transactions`): the stateless
extraction endpoint.  `hasPdfType` models the content-type check and
`contentSize` the uploaded byte count. -/
def extract_transactions (hasPdfType : Bool) (contentSize : Nat)
    (llm_provider : Option String) (models : String → String) (avail : String → Bool)
    (defaultProv : ProviderM) (exres : ExtractionResult) : Http ExtractResp :=
  if ¬ hasPdfType then .error (400, "Only PDF files are supported")
  else if contentSize > 10 * 1024 * 1024 then .error (400, "File too large. Maximum size is 10MB")
  else
    match selectProvider models avail defaultProv llm_provider with
    | .error e => .error (500, "Extraction failed: " ++ pyStrExc e)
    | .ok prov =>
        .ok { success := exres.success, provider := prov.name, model := prov.model,
              transaction_count := exres.transactions.length, error := exres.error }

/-! ## Theorems -/

theorem digitChar_mod_isDigit (n : Nat) : (Nat.digitChar (n % 10)).isDigit = true := by
  have h : n % 10 < 10 := Nat.mod_lt _ (by norm_num)
  generalize n % 10 = k at h
  interval_cases k <;> decide

theorem isIsoShape_fmtIso (ymd : YMD) : isIsoShape (fmtIso ymd).toList = true := by
  show isIsoShape (pad4 ymd.y ++ '-' :: (pad2 ymd.m ++ '-' :: pad2 ymd.d)) = true
  simp [pad4, pad2, isIsoShape, digitChar_mod_isDigit]

theorem fmtIso_ne_empty (ymd : YMD) : fmtIso ymd ≠ "" := by
  intro h
  have h10 : (fmtIso ymd).length = 10 := rfl
  rw [h] at h10
  exact absurd h10 (by decide)


/-- C7.  Date normalization is idempotent; a string already matching the
ISO pattern is returned unchanged; a string parsed by one of the supported
layouts maps to that date's ISO rendering; a string no layout parses comes
back unchanged. -/
theorem normalize_date_idempotent (s : String) :
    normalize_date (normalize_date s) = normalize_date s
    ∧ (isIsoShape s.toList = true → normalize_date s = s)
    ∧ (∀ ymd, isIsoShape s.toList = false → tryFormats (pyStrip s.toList) = some ymd →
        normalize_date s = fmtIso ymd)
    ∧ (isIsoShape s.toList = false → tryFormats (pyStrip s.toList) = none →
        normalize_date s = s) := by
  by_cases h0 : s = ""
  · subst h0
    refine ⟨rfl, fun h => absurd h (by decide), fun ymd h htf => ?_, fun _ _ => rfl⟩
    rw [show tryFormats (pyStrip ("" : String).toList) = none from rfl] at htf
    exact Option.noConfusion htf
  · by_cases h1 : isIsoShape s.toList = true
    · have h1d : isIsoShape s.data = true := h1
      have hns : normalize_date s = s := by simp [normalize_date, h0, h1d]
      refine ⟨by rw [hns]; exact hns, fun _ => hns, fun ymd hiso _ => ?_, fun hiso _ => hns⟩
      rw [h1] at hiso; exact absurd hiso (by decide)
    · have h1' : isIsoShape s.toList = false := by
        cases hv : isIsoShape s.toList
        · rfl
        · exact absurd hv h1
      have h1d : isIsoShape s.data = false := h1'
      cases htf : tryFormats (pyStrip s.toList) with
      | some ymd =>
          have htfd : tryFormats (pyStrip s.data) = some ymd := htf
          have hns : normalize_date s = fmtIso ymd := by
            simp [normalize_date, h0, h1d, htfd]
          have hfd : isIsoShape (fmtIso ymd).data = true := isIsoShape_fmtIso ymd
          have hid : normalize_date (fmtIso ymd) = fmtIso ymd := by
            simp [normalize_date, fmtIso_ne_empty ymd, hfd]
          refine ⟨by rw [hns]; exact hid, fun hiso => ?_, fun ymd' _ htf' => ?_,
                  fun _ htf' => ?_⟩
          · rw [hiso] at h1'; exact absurd h1' (by decide)
          · rw [hns, Option.some.inj htf']
          · exact Option.noConfusion htf'
      | none =>
          have htfd : tryFormats (pyStrip s.data) = none := htf
          have hns : normalize_date s = s := by
            simp [normalize_date, h0, h1d, htfd]
          refine ⟨by rw [hns]; exact hns, fun hiso => hns, fun ymd' _ htf' => ?_,
                  fun _ _ => hns⟩
          exact Option.noConfusion htf'

/-- C7 witness: concrete inputs exercising every hypothesis of
`normalize_date_idempotent`. -/
theorem normalize_date_idempotent_witness :
    normalize_date (normalize_date "garbage") = normalize_date "garbage"
    ∧ normalize_date "2024-01-15" = "2024-01-15"
    ∧ normalize_date "01/15/2024" = fmtIso ⟨2024, 1, 15⟩
    ∧ normalize_date "garbage" = "garbage" :=
  ⟨(normalize_date_idempotent "garbage").1,
   (normalize_date_idempotent "2024-01-15").2.1 (by decide),
   (normalize_date_idempotent "01/15/2024").2.2.1 ⟨2024, 1, 15⟩ (by decide) (by decide),
   (normalize_date_idempotent "garbage").2.2.2 (by decide) (by decide)⟩

theorem dropWhile_append_all {α : Type} (p : α → Bool) (l1 l2 : List α)
    (h : ∀ a ∈ l1, p a = true) : (l1 ++ l2).dropWhile p = l2.dropWhile p := by
  induction l1 with
  | nil => rfl
  | cons a l ih =>
      have ha : p a = true := h a (List.mem_cons_self a l)
      simp only [List.cons_append, List.dropWhile_cons, ha, if_true]
      exact ih (fun x hx => h x (List.mem_cons_of_mem a hx))

theorem dropWhile_cons_false {α : Type} (p : α → Bool) (a : α) (l : List α)
    (h : p a = false) : (a :: l).dropWhile p = a :: l := by
  simp [List.dropWhile_cons, h]

theorem docs_find?_map_update (f : BankDocument → BankDocument)
    (hf : ∀ d, (f d).id = d.id) (i : String) (l : List BankDocument) :
    (l.map (fun d => if d.id == i then f d else d)).find? (fun d => d.id == i) =
      (l.find? (fun d => d.id == i)).map f := by
  induction l with
  | nil => rfl
  | cons a l ih =>
      simp only [List.map_cons]
      by_cases h : a.id = i
      · have hb : (a.id == i) = true := by simp [h]
        rw [if_pos hb]
        simp [List.find?_cons, hb, hf]
      · have hb : (a.id == i) = false := by simp [h]
        rw [if_neg (by simp [hb])]
        simp only [List.find?_cons, hb]
        exact ih

theorem selectProvider_ok (models : String → String) (avail : String → Bool)
    (dflt : ProviderM) (lp : Option String)
    (h : ∀ p, lp = some p → providerAvailable avail (create_llm_provider models p) = true) :
    ∃ prov, selectProvider models avail dflt lp = .ok prov := by
  cases lp with
  | none => exact ⟨dflt, rfl⟩
  | some p =>
      exact ⟨create_llm_provider models p, by simp [selectProvider, h p rfl]⟩

/-- Input for the C4 counterexample: a balanced first block followed by
commentary that itself contains braces. -/
def exC4 : String := "note \x7b\x22a\x22: 1\x7d end \x7bx\x7d"

/-- C4 counterexample.  The normalizer does not locate the first balanced
brace-delimited block: the greedy `re.search` span runs from the first
opening brace to the *last* closing brace, so on `exC4` it grabs a
non-parseable span and the parse fails even though a balanced first block
exists. -/
theorem greedy_span_not_first_block :
    firstBalancedBlock exC4 = some "\x7b\x22a\x22: 1\x7d"
    ∧ extractJsonSpan exC4 = some "\x7b\x22a\x22: 1\x7d end \x7bx\x7d"
    ∧ extractJsonSpan exC4 ≠ firstBalancedBlock exC4
    ∧ (parse_llm_response jsonLoadsObj exC4).map (fun r => (r.success, r.error)) =
        .ok (false, some "Failed to parse JSON") :=
  ⟨rfl, rfl, by decide, rfl⟩

/-- C4 amended.  The normalizer parses the span from the first opening
brace to the last closing brace — this equals the first balanced block
whenever the leading commentary has no opening brace and the trailing
commentary has no closing brace — and when the text has no such span at
all it fails with the no-structured-data error and `process` persists that
error on the document, now `FAILED`. -/
theorem json_span_extraction_behavior :
    (∀ pre mid post : List Char, '{' ∉ pre → '}' ∉ post →
      extractJsonSpan (String.mk (pre ++ '{' :: (mid ++ '}' :: post))) =
        some (String.mk ('{' :: (mid ++ ['}']))))
    ∧ (∀ pj s, extractJsonSpan s = none →
        parse_llm_response pj s =
          .ok { success := false, statement_info := {}, transactions := [],
                raw_llm_response := s, error := some "No JSON found in LLM response" })
    ∧ (∀ st docId lp models avail dflt fresh pj resp doc,
        st.docs.find? (fun d => d.id == docId) = some doc →
        (doc.status = .PENDING ∨ doc.status = .FAILED) →
        (∀ p, lp = some p → providerAvailable avail (create_llm_provider models p) = true) →
        extractJsonSpan resp = none →
        ∃ d', ((process_document st docId lp models avail dflt (.ok ())
                  (extractOutcome pj resp) fresh).1.docs.find?
            (fun d => d.id == docId)) = some d' ∧
          d'.status = .FAILED ∧ d'.processingError = some "No JSON found in LLM response") := by
  refine ⟨?_, ?_, ?_⟩
  · intro pre mid post hpre hpost
    have h1 : (pre ++ '{' :: (mid ++ '}' :: post)).dropWhile (fun c => decide (c ≠ '{')) =
        '{' :: (mid ++ '}' :: post) := by
      rw [dropWhile_append_all _ pre _ (fun a ha => by
            simp only [decide_eq_true_eq]
            exact fun hc => hpre (hc ▸ ha))]
      exact dropWhile_cons_false _ '{' _ (by simp)
    have hrev : (mid ++ '}' :: post).reverse = post.reverse ++ '}' :: mid.reverse := by
      simp
    have h2 : (mid ++ '}' :: post).reverse.dropWhile (fun c => decide (c ≠ '}')) =
        '}' :: mid.reverse := by
      rw [hrev, dropWhile_append_all _ post.reverse _ (fun a ha => by
            simp only [decide_eq_true_eq]
            exact fun hc => hpost (hc ▸ (List.mem_reverse.mp ha)))]
      exact dropWhile_cons_false _ '}' _ (by simp)
    show (match (pre ++ '{' :: (mid ++ '}' :: post)).dropWhile (fun c => decide (c ≠ '{')) with
      | [] => none
      | _ :: rest =>
          match rest.reverse.dropWhile (fun c => decide (c ≠ '}')) with
          | [] => none
          | r => some (String.mk ('{' :: r.reverse))) =
        some (String.mk ('{' :: (mid ++ ['}'])))
    rw [h1]
    show (match (mid ++ '}' :: post).reverse.dropWhile (fun c => decide (c ≠ '}')) with
      | [] => none
      | r => some (String.mk ('{' :: r.reverse))) =
        some (String.mk ('{' :: (mid ++ ['}'])))
    rw [h2]
    show some (String.mk ('{' :: ('}' :: mid.reverse).reverse)) =
        some (String.mk ('{' :: (mid ++ ['}'])))
    simp
  · intro pj s h
    simp [parse_llm_response, h]
  · intro st docId lp models avail dflt fresh pj resp doc hfind hstat hprov hnone
    have hod : parse_llm_response pj resp =
        .ok { success := false, statement_info := {}, transactions := [],
              raw_llm_response := resp, error := some "No JSON found in LLM response" } := by
      simp [parse_llm_response, hnone]
    have hex : extractOutcome pj resp =
        { success := false, statement_info := {}, transactions := [],
          raw_llm_response := resp, error := some "No JSON found in LLM response" } := by
      rw [extractOutcome, hod]
    obtain ⟨prov, hsel⟩ := selectProvider_ok models avail dflt lp hprov
    rw [hex, process_document, hfind]
    simp only [if_pos hstat, hsel, Bool.false_eq_true, if_false]
    rw [docs_find?_map_update, docs_find?_map_update, hfind]
    · exact ⟨_, rfl, rfl, rfl⟩
    · intro d; rfl
    · intro d; rfl

/-- Document used by the C4 witness. -/
def c4wDoc : BankDocument :=
  { id := "d1", userId := "u1", filePath := "/tmp/d1.pdf", status := .PENDING }

/-- State used by the C4 witness. -/
def c4wState : AppState := { docs := [c4wDoc], cands := [], ledger := [] }

/-- C4 witness: `json_span_extraction_behavior` applied at concrete
inputs. -/
theorem json_span_extraction_behavior_witness :
    extractJsonSpan (String.mk (['n', 'o', ' '] ++ '{' :: (['1'] ++ '}' :: [' ', 'x']))) =
      some (String.mk ('{' :: (['1'] ++ ['}'])))
    ∧ ((process_document c4wState "d1" none (fun _ => "m") (fun _ => false)
          ⟨"mock", "Mock", "mock-v1"⟩ (.ok ()) (extractOutcome jsonLoadsObj "no braces")
          (fun _ => "x")).1.docs.find? (fun d => d.id == "d1")).map
        (fun d => (d.status, d.processingError)) =
      some (DocStatus.FAILED, some "No JSON found in LLM response") := by
  obtain ⟨h1, _, h3⟩ := json_span_extraction_behavior
  refine ⟨h1 _ _ _ (by decide) (by decide), ?_⟩
  obtain ⟨d', hfind, hstat, herr⟩ :=
    h3 c4wState "d1" none (fun _ => "m") (fun _ => false) ⟨"mock", "Mock", "mock-v1"⟩
      (fun _ => "x") jsonLoadsObj "no braces" c4wDoc rfl (Or.inl rfl)
      (fun p hp => Option.noConfusion hp) rfl
  rw [hfind]
  simp [hstat, herr]

/-- C6 amended.  The normalizer lower-cases the entry's `type` and uses
`"expense"` only when the field is missing; there is no validation against
the set of known types, so any other string is carried through lower-cased
as-is. -/
theorem type_lowercased_default_expense :
    (∀ i kvs e, processEntry i (.obj kvs) = .ok e →
        ∀ s, jsonGet kvs "type" (.str "expense") = .str s → e.type = pyLower s)
    ∧ (∀ i kvs e, processEntry i (.obj kvs) = .ok e →
        kvs.find? (fun kv => kv.1 == "type") = none → e.type = "expense") := by
  have main : ∀ i kvs e, processEntry i (.obj kvs) = .ok e →
      ∀ s, jsonGet kvs "type" (.str "expense") = .str s → e.type = pyLower s := by
    intro i kvs e h s hty
    simp only [processEntry] at h
    cases hd : normDateVal (jsonGet kvs "date" (.str "")) with
    | none => rw [hd] at h; exact absurd h (by simp)
    | some date =>
        rw [hd] at h
        cases ha : pyFloat (jsonGet kvs "amount" (.num 0)) with
        | none => rw [ha] at h; exact absurd h (by simp)
        | some amt =>
            rw [ha, hty] at h
            cases hc : pyFloat (jsonGet kvs "confidence" (.num (mkRat 1 2))) with
            | none => rw [hc] at h; exact absurd h (by simp)
            | some conf =>
                rw [hc] at h
                have he := EntryOutcome.ok.inj h
                rw [← he]
  refine ⟨main, fun i kvs e h hmiss => ?_⟩
  have : jsonGet kvs "type" (.str "expense") = .str "expense" := by
    simp [jsonGet, hmiss]
  rw [main i kvs e h "expense" this]
  rfl

/-- Entry fields used by the C6 witness. -/
def c6wEntry : List (String × JsonVal) :=
  [("date", .str "2024-01-02"), ("amount", .num 5), ("type", .str "Transfer")]

/-- The candidate the normalizer builds from `c6wEntry`. -/
def c6wOut : ExtractedTransaction :=
  { date := "2024-01-02", description := .str "Unknown", original_description := .str "",
    amount := 5, type := "transfer", category := .null, confidence := mkRat 1 2, line_number := 1 }

/-- Entry fields with no `type` key, for the default case of the C6
witness. -/
def c6wEntry2 : List (String × JsonVal) :=
  [("date", .str "2024-01-02"), ("amount", .num 5)]

/-- The candidate the normalizer builds from `c6wEntry2`. -/
def c6wOut2 : ExtractedTransaction :=
  { date := "2024-01-02", description := .str "Unknown", original_description := .str "",
    amount := 5, type := "expense", category := .null, confidence := mkRat 1 2, line_number := 1 }

/-- C6 witness: `type_lowercased_default_expense` applied at concrete
entries. -/
theorem type_lowercased_default_expense_witness :
    c6wOut.type = pyLower "Transfer" ∧ c6wOut2.type = "expense" :=
  ⟨type_lowercased_default_expense.1 0 c6wEntry c6wOut rfl "Transfer" rfl,
   type_lowercased_default_expense.2 0 c6wEntry2 c6wOut2 rfl rfl⟩

/-- Raw backend text for the C6 counterexample: a well-formed response
whose transaction has type `"Transfer"`. -/
def respC6 : String :=
  "\x7b\x22transactions\x22: [\x7b\x22date\x22: \x222024-01-02\x22, \x22amount\x22: 5, \x22type\x22: \x22Transfer\x22\x7d]\x7d"

/-- C6 counterexample.  The normalizer accepts the entry with type
`"transfer"`, which is neither `"expense"` nor `"income"`: unrecognized
type values are not validated or defaulted. -/
theorem unrecognized_type_passes_through :
    (parse_llm_response jsonLoadsObj respC6).map
        (fun r => r.transactions.map (fun t => t.type)) = .ok ["transfer"]
    ∧ "transfer" ≠ "expense" ∧ "transfer" ≠ "income" :=
  ⟨rfl, by decide, by decide⟩

theorem exceptMap_eq_ok {ε α β : Type} (f : α → β) (x : Except ε α) (b : β) :
    x.map f = .ok b ↔ ∃ a, x = .ok a ∧ f a = b := by
  cases x <;> simp [Except.map]

theorem parseEntries_ok_iff_no_crash (es : List JsonVal) : ∀ i,
    (∃ out, parseEntries i es = .ok out) ↔
      (∀ k t, es.get? k = some t → ∀ m, processEntry (i + k) t ≠ .crash m) := by
  induction es with
  | nil => intro i; simp [parseEntries]
  | cons t ts ih =>
      intro i
      have shift : (∀ k t', (t :: ts).get? k = some t' →
          ∀ m, processEntry (i + k) t' ≠ .crash m) ↔
          ((∀ m, processEntry i t ≠ .crash m) ∧
            (∀ k t', ts.get? k = some t' → ∀ m, processEntry ((i + 1) + k) t' ≠ .crash m)) := by
        constructor
        · intro h
          refine ⟨fun m => by simpa using h 0 t rfl m, fun k t' hk m => ?_⟩
          have := h (k + 1) t' (by simpa using hk) m
          have harith : i + (k + 1) = (i + 1) + k := by omega
          rwa [harith] at this
        · rintro ⟨h0, hs⟩ k t' hk m
          cases k with
          | zero =>
              simp only [List.get?_cons_zero] at hk
              cases hk
              simpa using h0 m
          | succ k =>
              simp only [List.get?_cons_succ] at hk
              have harith : i + (k + 1) = (i + 1) + k := by omega
              rw [harith]
              exact hs k t' hk m
      rw [shift]
      cases hp : processEntry i t with
      | crash m =>
          simp only [parseEntries, hp]
          constructor
          · rintro ⟨out, hout⟩
            exact Except.noConfusion hout
          · rintro ⟨h0, -⟩
            exact absurd rfl (h0 m)
      | skip =>
          simp only [parseEntries, hp]
          rw [ih (i + 1)]
          constructor
          · intro h
            exact ⟨fun m hc => EntryOutcome.noConfusion hc, h⟩
          · rintro ⟨-, h⟩
            exact h
      | ok e =>
          simp only [parseEntries, hp]
          have hnc : ∀ m, EntryOutcome.ok e ≠ EntryOutcome.crash m :=
            fun m hc => EntryOutcome.noConfusion hc
          by_cases hv : 0 < e.amount ∧ e.date ≠ ""
          · rw [if_pos hv]
            constructor
            · rintro ⟨out, hout⟩
              rw [exceptMap_eq_ok] at hout
              obtain ⟨a, ha, -⟩ := hout
              exact ⟨hnc, ((ih (i + 1)).mp ⟨a, ha⟩)⟩
            · rintro ⟨-, h⟩
              obtain ⟨out, hout⟩ := (ih (i + 1)).mpr h
              exact ⟨e :: out, by rw [exceptMap_eq_ok]; exact ⟨out, hout, rfl⟩⟩
          · rw [if_neg hv, ih (i + 1)]
            constructor
            · exact fun h => ⟨hnc, h⟩
            · rintro ⟨-, h⟩
              exact h

theorem parseEntries_mem_iff (es : List JsonVal) : ∀ i out, parseEntries i es = .ok out →
    ∀ e, (e ∈ out ↔ ∃ k t, es.get? k = some t ∧ processEntry (i + k) t = .ok e ∧
      0 < e.amount ∧ e.date ≠ "") := by
  induction es with
  | nil =>
      intro i out hout e
      simp only [parseEntries] at hout
      cases hout
      simp
  | cons t ts ih =>
      intro i out hout e
      have shift : (∃ k t', (t :: ts).get? k = some t' ∧ processEntry (i + k) t' = .ok e ∧
          0 < e.amount ∧ e.date ≠ "") ↔
          ((processEntry i t = .ok e ∧ 0 < e.amount ∧ e.date ≠ "") ∨
            (∃ k t', ts.get? k = some t' ∧ processEntry ((i + 1) + k) t' = .ok e ∧
              0 < e.amount ∧ e.date ≠ "")) := by
        constructor
        · rintro ⟨k, t', hk, hpr, hv⟩
          cases k with
          | zero =>
              simp only [List.get?_cons_zero] at hk
              cases hk
              exact Or.inl ⟨by simpa using hpr, hv⟩
          | succ k =>
              simp only [List.get?_cons_succ] at hk
              have harith : i + (k + 1) = (i + 1) + k := by omega
              rw [harith] at hpr
              exact Or.inr ⟨k, t', hk, hpr, hv⟩
        · rintro (⟨hpr, hv⟩ | ⟨k, t', hk, hpr, hv⟩)
          · exact ⟨0, t, rfl, by simpa using hpr, hv⟩
          · refine ⟨k + 1, t', by simpa using hk, ?_, hv⟩
            have harith : i + (k + 1) = (i + 1) + k := by omega
            rwa [harith]
      rw [shift]
      cases hp : processEntry i t with
      | crash m =>
          simp only [parseEntries, hp] at hout
          exact Except.noConfusion hout
      | skip =>
          simp only [parseEntries, hp] at hout
          rw [ih (i + 1) out hout e]
          constructor
          · exact fun h => Or.inr h
          · rintro (⟨hpr, -⟩ | h)
            · exact EntryOutcome.noConfusion hpr
            · exact h
      | ok e' =>
          simp only [parseEntries, hp] at hout
          by_cases hv : 0 < e'.amount ∧ e'.date ≠ ""
          · rw [if_pos hv] at hout
            rw [exceptMap_eq_ok] at hout
            obtain ⟨out', hout', heq⟩ := hout
            subst heq
            rw [List.mem_cons, ih (i + 1) out' hout' e]
            constructor
            · rintro (heq | h)
              · subst heq
                exact Or.inl ⟨rfl, hv⟩
              · exact Or.inr h
            · rintro (⟨hpr, -⟩ | h)
              · exact Or.inl (EntryOutcome.ok.inj hpr).symm
              · exact Or.inr h
          · rw [if_neg hv] at hout
            rw [ih (i + 1) out hout e]
            constructor
            · exact fun h => Or.inr h
            · rintro (⟨hpr, hve⟩ | h)
              · rw [← EntryOutcome.ok.inj hpr] at hve
                exact absurd hve hv
              · exact h

/-- C5 amended.  Entries are processed independently and an entry is
accepted exactly when its magnitude is positive and its date non-empty;
an entry whose bad field raises ValueError/TypeError (e.g. a non-numeric
amount) is skipped individually; but an entry of the wrong shape — not a
map, or with a non-string type field — raises AttributeError, which the
loop does not catch: the whole batch aborts and the extraction as a whole
fails. -/
theorem entry_level_error_handling :
    (∀ i es, (∃ out, parseEntries i es = .ok out) ↔
        (∀ k t, es.get? k = some t → ∀ m, processEntry (i + k) t ≠ .crash m))
    ∧ (∀ i es out e, parseEntries i es = .ok out →
        (e ∈ out ↔ ∃ k t, es.get? k = some t ∧ processEntry (i + k) t = .ok e ∧
          0 < e.amount ∧ e.date ≠ ""))
    ∧ (∀ i t ts, processEntry i t = .skip → parseEntries i (t :: ts) = parseEntries (i + 1) ts)
    ∧ (∀ pj resp m, parse_llm_response pj resp = .error m →
        (extractOutcome pj resp).success = false ∧
        (extractOutcome pj resp).error = some ("Extraction failed: " ++ m)) := by
  refine ⟨fun i es => parseEntries_ok_iff_no_crash es i,
    fun i es out e hout => parseEntries_mem_iff es i out hout e, ?_, ?_⟩
  · intro i t ts hp
    simp [parseEntries, hp]
  · intro pj resp m h
    rw [extractOutcome, h]
    exact ⟨rfl, rfl⟩

/-- An entry whose amount is a non-numeric string (ValueError in
`float`). -/
def c5wBadAmt : JsonVal := .obj [("date", .str "2024-01-03"), ("amount", .str "abc")]

/-- A well-formed entry following the bad one. -/
def c5wGood : JsonVal := .obj [("date", .str "2024-01-03"), ("amount", .num 7)]

/-- The candidate built from `c5wGood` at position 2. -/
def c5wGoodOut : ExtractedTransaction :=
  { date := "2024-01-03", description := .str "Unknown", original_description := .str "",
    amount := 7, type := "expense", category := .null, confidence := mkRat 1 2,
    line_number := 2 }

/-- Backend text whose `transactions` value is not iterable. -/
def respC5iter : String := "\x7b\x22transactions\x22: 5\x7d"

/-- C5 witness: `entry_level_error_handling` applied at concrete inputs —
the non-numeric-amount entry is skipped while the following entry is still
accepted, and an uncaught error fails the whole extraction. -/
theorem entry_level_error_handling_witness :
    parseEntries 0 [c5wBadAmt, c5wGood] = .ok [c5wGoodOut]
    ∧ (extractOutcome jsonLoadsObj respC5iter).success = false := by
  refine ⟨?_, (entry_level_error_handling.2.2.2 jsonLoadsObj respC5iter
    "TypeError: object is not iterable" rfl).1⟩
  rw [entry_level_error_handling.2.2.1 0 c5wBadAmt [c5wGood] rfl]
  rfl

/-- Backend text with one valid entry followed by an entry that is a bare
number (wrong shape). -/
def respC5 : String :=
  "\x7b\x22transactions\x22: [\x7b\x22date\x22: \x222024-01-02\x22, \x22amount\x22: 5\x7d, 7]\x7d"

/-- The same response without the malformed entry. -/
def respC5ok : String :=
  "\x7b\x22transactions\x22: [\x7b\x22date\x22: \x222024-01-02\x22, \x22amount\x22: 5\x7d]\x7d"

/-- C5 counterexample.  One malformed entry of the wrong shape (a bare
number) raises AttributeError in `t.get`, aborting the whole batch — the
valid entry that parses fine on its own (`respC5ok`) is lost and the
entire extraction fails. -/
theorem bad_entry_aborts_extraction :
    parse_llm_response jsonLoadsObj respC5 =
      .error "AttributeError: object has no attribute get"
    ∧ (extractOutcome jsonLoadsObj respC5).success = false
    ∧ (extractOutcome jsonLoadsObj respC5).error =
        some "Extraction failed: AttributeError: object has no attribute get"
    ∧ (parse_llm_response jsonLoadsObj respC5ok).map (fun r => r.transactions.length) =
        .ok 1 :=
  ⟨rfl, rfl, rfl, rfl⟩

/-- Every row of `next` keeps the magnitude and date of some row of
`orig`. -/
def preservesAmountDate (orig next : List PendingTransaction) : Prop :=
  ∀ c' ∈ next, ∃ c ∈ orig, c'.amount = c.amount ∧ c'.date = c.date

theorem preservesAmountDate_refl (l : List PendingTransaction) :
    preservesAmountDate l l :=
  fun c' hc' => ⟨c', hc', rfl, rfl⟩

theorem preservesAmountDate_trans {l1 l2 l3 : List PendingTransaction}
    (h12 : preservesAmountDate l1 l2) (h23 : preservesAmountDate l2 l3) :
    preservesAmountDate l1 l3 := by
  intro c' hc'
  obtain ⟨c2, hc2, ha, hd⟩ := h23 c' hc'
  obtain ⟨c1, hc1, ha', hd'⟩ := h12 c2 hc2
  exact ⟨c1, hc1, ha.trans ha', hd.trans hd'⟩

theorem preservesAmountDate_map (l : List PendingTransaction)
    (f : PendingTransaction → PendingTransaction)
    (hf : ∀ c, (f c).amount = c.amount ∧ (f c).date = c.date) :
    preservesAmountDate l (l.map f) := by
  intro c' hc'
  obtain ⟨c, hc, rfl⟩ := List.mem_map.mp hc'
  exact ⟨c, hc, (hf c).1, (hf c).2⟩

theorem preservesAmountDate_filter (l : List PendingTransaction)
    (p : PendingTransaction → Bool) :
    preservesAmountDate l (l.filter p) :=
  fun c' hc' => ⟨c', (List.mem_filter.mp hc').1, rfl, rfl⟩

theorem markDuplicates_preserves (dups : List (String × String)) :
    ∀ cands, preservesAmountDate cands (markDuplicates cands dups) := by
  induction dups with
  | nil => exact fun cands => preservesAmountDate_refl cands
  | cons pr prs ih =>
      intro cands
      have h1 : preservesAmountDate cands (cands.map (fun c =>
          if c.id == pr.1 then { c with status := .DUPLICATE, duplicateOfId := some pr.2 }
          else c)) := by
        refine preservesAmountDate_map _ _ (fun c => ?_)
        by_cases h : (c.id == pr.1) = true
        · simp [h]
        · simp [h]
      exact preservesAmountDate_trans h1 (ih _)

theorem runImportLoop_preserves (b : Option String) (u : String) (fresh : Nat → String) :
    ∀ ps i ledger cands,
      preservesAmountDate cands (runImportLoop b u fresh i ps ledger cands).2 := by
  intro ps
  induction ps with
  | nil => exact fun i ledger cands => preservesAmountDate_refl cands
  | cons p ps ih =>
      intro i ledger cands
      have h1 : preservesAmountDate cands (cands.map (fun c =>
          if c.id == p.id then markImported (fresh i) c else c)) := by
        refine preservesAmountDate_map _ _ (fun c => ?_)
        by_cases h : (c.id == p.id) = true
        · simp [h, markImported]
        · simp [h]
      exact preservesAmountDate_trans h1 (ih _ _ _)

theorem parse_llm_response_valid (pj : String → Option (List (String × JsonVal)))
    (resp : String) (res : ExtractionResult)
    (h : parse_llm_response pj resp = .ok res) :
    ∀ t ∈ res.transactions, 0 < t.amount ∧ t.date ≠ "" := by
  intro t ht
  rw [parse_llm_response] at h
  cases hspan : extractJsonSpan resp with
  | none =>
      simp only [hspan] at h
      cases h
      simp at ht
  | some span =>
      simp only [hspan] at h
      cases hpj : pj span with
      | none =>
          simp only [hpj] at h
          cases h
          simp at ht
      | some data =>
          simp only [hpj] at h
          cases hsi : parseStatementInfo data with
          | error e => simp only [hsi] at h; exact Except.noConfusion h
          | ok info =>
              simp only [hsi] at h
              cases hit : iterEntries (jsonGet data "transactions" (.arr [])) with
              | error e => simp only [hit] at h; exact Except.noConfusion h
              | ok entries =>
                  simp only [hit] at h
                  cases hpe : parseEntries 0 entries with
                  | error e => simp only [hpe] at h; exact Except.noConfusion h
                  | ok txns =>
                      simp only [hpe] at h
                      cases h
                      simp only at ht
                      obtain ⟨k, t', hk, hok, hv⟩ :=
                        (parseEntries_mem_iff entries 0 txns hpe t).mp ht
                      exact hv

theorem candRowsOf_valid (fresh : Nat → String) (docId : String) :
    ∀ i ts, (∀ t ∈ ts, 0 < t.amount ∧ t.date ≠ "") →
      ∀ c ∈ candRowsOf fresh docId i ts, 0 < c.amount ∧ c.date ≠ "" := by
  intro i ts
  induction ts generalizing i with
  | nil => intro _ c hc; simp [candRowsOf] at hc
  | cons t ts ih =>
      intro hts c hc
      simp only [candRowsOf, List.mem_cons] at hc
      cases hc with
      | inl h =>
          subst h
          exact hts t (List.mem_cons_self t ts)
      | inr h =>
          exact ih (i + 1) (fun t' ht' => hts t' (List.mem_cons_of_mem t ht')) c h

theorem import_transactions_eq_none (st : AppState) (did : String) (bid : Option String)
    (fresh : Nat → String) (hf : st.docs.find? (fun d => d.id == did) = none) :
    import_transactions st did bid fresh = (st, .error (404, "Document not found")) := by
  simp [import_transactions, hf]

theorem import_transactions_eq_empty (st : AppState) (did : String) (bid : Option String)
    (fresh : Nat → String) (doc : BankDocument)
    (hf : st.docs.find? (fun d => d.id == did) = some doc)
    (he : (st.cands.filter
      (fun c => c.documentId == did && c.status == CandStatus.APPROVED)).isEmpty = true) :
    import_transactions st did bid fresh =
      (st, .error (400, "No approved transactions to import")) := by
  simp [import_transactions, hf, he]

theorem import_transactions_eq_run (st : AppState) (did : String) (bid : Option String)
    (fresh : Nat → String) (doc : BankDocument)
    (hf : st.docs.find? (fun d => d.id == did) = some doc)
    (he : (st.cands.filter
      (fun c => c.documentId == did && c.status == CandStatus.APPROVED)).isEmpty = false) :
    import_transactions st did bid fresh =
      (let approved := st.cands.filter
        (fun c => c.documentId == did && c.status == CandStatus.APPROVED)
       let lc := runImportLoop bid doc.userId fresh 0 approved st.ledger st.cands
       ({ docs := st.docs.map (fun d =>
            if d.id == did then { d with status := DocStatus.IMPORTED } else d),
          cands := lc.2, ledger := lc.1 },
        .ok { imported_count := approved.length,
              transaction_ids := (List.range approved.length).map fresh })) := by
  simp [import_transactions, hf, he]

theorem update_transaction_eq_notfound (st : AppState) (tid : String) (u : TransactionUpdate)
    (hf : st.cands.find? (fun c => c.id == tid) = none) :
    update_transaction st tid u = (st, .error (404, "Transaction not found")) := by
  simp [update_transaction, hf]

theorem update_transaction_eq_imported (st : AppState) (tid : String) (u : TransactionUpdate)
    (row : PendingTransaction) (hf : st.cands.find? (fun c => c.id == tid) = some row)
    (hi : row.status = CandStatus.IMPORTED) :
    update_transaction st tid u =
      (st, .error (400, "Cannot modify imported transaction")) := by
  simp [update_transaction, hf, hi]

theorem update_transaction_eq_apply (st : AppState) (tid : String) (u : TransactionUpdate)
    (row : PendingTransaction) (hf : st.cands.find? (fun c => c.id == tid) = some row)
    (hi : row.status ≠ CandStatus.IMPORTED) :
    update_transaction st tid u =
      ({ st with cands := st.cands.map (fun c =>
          if c.id == tid then applyUpdate u c else c) }, .ok ()) := by
  simp [update_transaction, hf, hi]

/-- C2 amended.  Candidates produced by the normalizer always have a
strictly positive magnitude and a non-empty date (invalid entries are
dropped before persistence), and the rows `process` inserts inherit this;
approve, reject, bulk, the duplicate check and import never change any
row's magnitude or date, and update never changes a date — but update
writes a client-supplied amount with no positivity check, so the
magnitude invariant does not survive the update operation (see the
counterexample). -/
theorem candidate_magnitude_date_invariant :
    (∀ pj resp res, parse_llm_response pj resp = .ok res →
        ∀ t ∈ res.transactions, 0 < t.amount ∧ t.date ≠ "")
    ∧ (∀ fresh docId i ts, (∀ t ∈ ts, 0 < t.amount ∧ t.date ≠ "") →
        ∀ c ∈ candRowsOf fresh docId i ts, 0 < c.amount ∧ c.date ≠ "")
    ∧ (∀ st tid, preservesAmountDate st.cands (approve_transaction st tid).1.cands)
    ∧ (∀ st tid, preservesAmountDate st.cands (reject_transaction st tid).1.cands)
    ∧ (∀ st ids act, preservesAmountDate st.cands (bulk_action st ids act).1.cands)
    ∧ (∀ st did uid, preservesAmountDate st.cands (check_duplicates st did uid).1.cands)
    ∧ (∀ st did bid fresh,
        preservesAmountDate st.cands (import_transactions st did bid fresh).1.cands)
    ∧ (∀ st tid u, u.amount = none →
        preservesAmountDate st.cands (update_transaction st tid u).1.cands)
    ∧ (∀ st tid u c', c' ∈ (update_transaction st tid u).1.cands →
        ∃ c ∈ st.cands, c'.date = c.date) := by
  refine ⟨parse_llm_response_valid, candRowsOf_valid, ?_, ?_, ?_, ?_, ?_, ?_, ?_⟩
  · intro st tid
    have hmap : preservesAmountDate st.cands (st.cands.map (fun c =>
        if c.id == tid && c.status == CandStatus.PENDING then
          { c with status := CandStatus.APPROVED } else c)) := by
      refine preservesAmountDate_map _ _ (fun c => ?_)
      by_cases h : (c.id == tid && c.status == CandStatus.PENDING) = true
      · rw [if_pos h]; exact ⟨rfl, rfl⟩
      · rw [if_neg h]; exact ⟨rfl, rfl⟩
    by_cases hcond : (st.cands.any (fun c => c.id == tid && c.status == CandStatus.PENDING)) = true
    · simpa [approve_transaction, hcond] using hmap
    · simpa [approve_transaction, hcond] using hmap
  · intro st tid
    have hmap : preservesAmountDate st.cands (st.cands.map (fun c =>
        if c.id == tid && (c.status == CandStatus.PENDING || c.status == CandStatus.APPROVED) then
          { c with status := CandStatus.REJECTED } else c)) := by
      refine preservesAmountDate_map _ _ (fun c => ?_)
      by_cases h : (c.id == tid && (c.status == CandStatus.PENDING ||
          c.status == CandStatus.APPROVED)) = true
      · rw [if_pos h]; exact ⟨rfl, rfl⟩
      · rw [if_neg h]; exact ⟨rfl, rfl⟩
    by_cases hcond : (st.cands.any (fun c => c.id == tid && (c.status == CandStatus.PENDING ||
        c.status == CandStatus.APPROVED))) = true
    · simpa [reject_transaction, hcond] using hmap
    · simpa [reject_transaction, hcond] using hmap
  · intro st ids act
    rw [bulk_action]
    by_cases he : ids.isEmpty
    · rw [if_pos he]
      exact preservesAmountDate_refl _
    · rw [if_neg he]
      by_cases hd : act = "delete"
      · rw [if_pos hd]
        exact preservesAmountDate_filter _ _
      · rw [if_neg hd]
        by_cases ha : act = "approve" ∨ act = "reject"
        · rw [if_pos ha]
          refine preservesAmountDate_map _ _ (fun c => ?_)
          by_cases h : (ids.contains c.id && (c.status == CandStatus.PENDING ||
              c.status == CandStatus.APPROVED)) = true
          · rw [if_pos h]; exact ⟨rfl, rfl⟩
          · rw [if_neg h]; exact ⟨rfl, rfl⟩
        · rw [if_neg ha]
          exact preservesAmountDate_refl _
  · intro st did uid
    exact markDuplicates_preserves _ _
  · intro st did bid fresh
    cases hf : st.docs.find? (fun d => d.id == did) with
    | none =>
        rw [import_transactions_eq_none st did bid fresh hf]
        exact preservesAmountDate_refl _
    | some doc =>
        cases he : (st.cands.filter
            (fun c => c.documentId == did && c.status == CandStatus.APPROVED)).isEmpty with
        | true =>
            rw [import_transactions_eq_empty st did bid fresh doc hf he]
            exact preservesAmountDate_refl _
        | false =>
            rw [import_transactions_eq_run st did bid fresh doc hf he]
            exact runImportLoop_preserves _ _ _ _ _ _ _
  · intro st tid u hu
    cases hf : st.cands.find? (fun c => c.id == tid) with
    | none =>
        rw [update_transaction_eq_notfound st tid u hf]
        exact preservesAmountDate_refl _
    | some row =>
        by_cases hi : row.status = CandStatus.IMPORTED
        · rw [update_transaction_eq_imported st tid u row hf hi]
          exact preservesAmountDate_refl _
        · rw [update_transaction_eq_apply st tid u row hf hi]
          refine preservesAmountDate_map _ _ (fun c => ?_)
          by_cases h : (c.id == tid) = true
          · rw [if_pos h]
            exact ⟨by simp [applyUpdate, hu], rfl⟩
          · rw [if_neg h]; exact ⟨rfl, rfl⟩
  · intro st tid u c' hc'
    cases hf : st.cands.find? (fun c => c.id == tid) with
    | none =>
        rw [update_transaction_eq_notfound st tid u hf] at hc'
        exact ⟨c', hc', rfl⟩
    | some row =>
        by_cases hi : row.status = CandStatus.IMPORTED
        · rw [update_transaction_eq_imported st tid u row hf hi] at hc'
          exact ⟨c', hc', rfl⟩
        · rw [update_transaction_eq_apply st tid u row hf hi] at hc'
          simp only at hc'
          obtain ⟨c, hc, rfl⟩ := List.mem_map.mp hc'
          by_cases h : (c.id == tid) = true
          · exact ⟨c, hc, by rw [if_pos h]; rfl⟩
          · exact ⟨c, hc, by rw [if_neg h]⟩

/-- A stored candidate used by the C2 scenario. -/
def c2wCand : PendingTransaction :=
  { id := "t1", documentId := "d1", date := "2024-01-02", description := .str "Coffee",
    originalDescription := .str "COFFEE SHOP", amount := 5, type := "EXPENSE",
    category := .null, confidence := 1, status := .PENDING }

/-- State holding `c2wCand`. -/
def c2wState : AppState := { docs := [], cands := [c2wCand], ledger := [] }

/-- A client update carrying a negative amount. -/
def c2wUpd : TransactionUpdate := { amount := some (-3) }

/-- C2 counterexample.  The update route stores a client-supplied amount
with no positivity check: updating the stored candidate with amount −3
succeeds and leaves a stored magnitude that is not strictly positive. -/
theorem update_stores_nonpositive_amount :
    (update_transaction c2wState "t1" c2wUpd).1.cands.map (fun c => c.amount) = [-3]
    ∧ (update_transaction c2wState "t1" c2wUpd).2 = .ok ()
    ∧ ¬ (0 < (-3 : ℚ)) :=
  ⟨rfl, rfl, by norm_num⟩

/-- A backend response with one valid transaction, for the C2 witness. -/
def c2wResp : String :=
  "\x7b\x22transactions\x22: [\x7b\x22date\x22: \x222024-01-02\x22, \x22amount\x22: 5\x7d]\x7d"

/-- The candidate the normalizer parses out of `c2wResp`. -/
def c2wParsed : ExtractedTransaction :=
  { date := "2024-01-02", description := .str "Unknown", original_description := .str "",
    amount := 5, type := "expense", category := .null, confidence := mkRat 1 2,
    line_number := 1 }

/-- The extraction result the normalizer produces from `c2wResp`. -/
def c2wRes : ExtractionResult :=
  { success := true, statement_info := {}, transactions := [c2wParsed],
    raw_llm_response := c2wResp }

/-- C2 witness: `candidate_magnitude_date_invariant` applied at concrete
inputs — a concretely parsed candidate satisfies the invariant, the
inserted process row inherits it, and a concrete update without an amount
field preserves every row's magnitude and date. -/
theorem candidate_magnitude_date_invariant_witness :
    (0 < c2wParsed.amount ∧ c2wParsed.date ≠ "")
    ∧ (0 < (candRowOf (fun _ => "p0") "d1" 0 c2wParsed).amount
        ∧ (candRowOf (fun _ => "p0") "d1" 0 c2wParsed).date ≠ "")
    ∧ (∃ c ∈ c2wState.cands,
        (applyUpdate { notes := some "n" } c2wCand).amount = c.amount ∧
        (applyUpdate { notes := some "n" } c2wCand).date = c.date) := by
  have h1 := candidate_magnitude_date_invariant.1 jsonLoadsObj c2wResp c2wRes rfl
    c2wParsed (List.mem_singleton.mpr rfl)
  have h2 := candidate_magnitude_date_invariant.2.1 (fun _ => "p0") "d1" 0 [c2wParsed]
    (candidate_magnitude_date_invariant.1 jsonLoadsObj c2wResp c2wRes rfl)
    (candRowOf (fun _ => "p0") "d1" 0 c2wParsed) (List.mem_singleton.mpr rfl)
  have h3 := candidate_magnitude_date_invariant.2.2.2.2.2.2.2.1 c2wState "t1"
    { notes := some "n" } rfl (applyUpdate { notes := some "n" } c2wCand)
    (List.mem_singleton.mpr rfl)
  exact ⟨h1, h2, h3⟩

theorem markDuplicates_untouched (dups : List (String × String)) :
    ∀ (cands : List PendingTransaction) (c : PendingTransaction), c ∈ cands →
      (∀ pr ∈ dups, pr.1 ≠ c.id) → c ∈ markDuplicates cands dups := by
  induction dups with
  | nil => intro cands c hc _; exact hc
  | cons pr prs ih =>
      intro cands c hc hne
      have hstep : markDuplicates cands (pr :: prs) =
          markDuplicates (cands.map (fun c =>
            if c.id == pr.1 then { c with status := .DUPLICATE, duplicateOfId := some pr.2 }
            else c)) prs := rfl
      rw [hstep]
      have htc : (if c.id == pr.1 then
          { c with status := CandStatus.DUPLICATE, duplicateOfId := some pr.2 } else c) = c := by
        rw [if_neg]
        simp only [beq_iff_eq]
        exact fun h => hne pr (List.mem_cons_self pr prs) (h ▸ rfl)
      refine ih _ c ?_ (fun pr' h' => hne pr' (List.mem_cons_of_mem pr h'))
      exact List.mem_map.mpr ⟨c, hc, htc⟩

theorem markDuplicates_hit (did : String) :
    ∀ (dups : List (String × String)) (cands : List PendingTransaction)
      (c : PendingTransaction), c ∈ cands → (c.id, did) ∈ dups →
      (dups.map Prod.fst).Nodup →
      { c with status := CandStatus.DUPLICATE, duplicateOfId := some did } ∈
        markDuplicates cands dups := by
  intro dups
  induction dups with
  | nil => intro cands c _ hmem _; exact absurd hmem (List.not_mem_nil _)
  | cons pr prs ih =>
      intro cands c hc hmem hnd
      have hstep : markDuplicates cands (pr :: prs) =
          markDuplicates (cands.map (fun c =>
            if c.id == pr.1 then { c with status := .DUPLICATE, duplicateOfId := some pr.2 }
            else c)) prs := rfl
      rw [hstep]
      rw [List.map_cons, List.nodup_cons] at hnd
      rcases List.mem_cons.mp hmem with heq | hmem'
      · have hpr1 : pr.1 = c.id := by rw [← heq]
        have hpr2 : pr.2 = did := by rw [← heq]
        have htc : (if c.id == pr.1 then
            { c with status := CandStatus.DUPLICATE, duplicateOfId := some pr.2 } else c) =
            { c with status := CandStatus.DUPLICATE, duplicateOfId := some did } := by
          rw [if_pos (by simp [hpr1]), hpr2]
        refine markDuplicates_untouched prs _ _ ?_ ?_
        · exact List.mem_map.mpr ⟨c, hc, htc⟩
        · intro pr' h' heq'
          exact hnd.1 (hpr1 ▸ heq' ▸ List.mem_map_of_mem Prod.fst h')
      · have hpr1 : pr.1 ≠ c.id := by
          intro h
          exact hnd.1 (h ▸ (List.mem_map_of_mem Prod.fst hmem' : (c.id, did).1 ∈ _))
        have htc : (if c.id == pr.1 then
            { c with status := CandStatus.DUPLICATE, duplicateOfId := some pr.2 } else c) = c := by
          rw [if_neg]
          simp only [beq_iff_eq]
          exact fun h => hpr1 h.symm
        refine ih _ c ?_ hmem' hnd.2
        exact List.mem_map.mpr ⟨c, hc, htc⟩

theorem nodup_filterMap_fst {β : Type} (f : PendingTransaction → Option (String × β))
    (hf : ∀ p pr, f p = some pr → pr.1 = p.id) :
    ∀ l : List PendingTransaction, (l.map (fun c => c.id)).Nodup →
      ((l.filterMap f).map Prod.fst).Nodup := by
  intro l
  induction l with
  | nil => intro _; simp
  | cons p ps ih =>
      intro hnd
      rw [List.map_cons, List.nodup_cons] at hnd
      rw [List.filterMap_cons]
      cases hf2 : f p with
      | none => exact ih hnd.2
      | some pr =>
          rw [List.map_cons, List.nodup_cons]
          refine ⟨?_, ih hnd.2⟩
          intro hmem
          obtain ⟨pr', hpr', hfst⟩ := List.mem_map.mp hmem
          obtain ⟨q, hq, hfq⟩ := List.mem_filterMap.mp hpr'
          have h1 : pr'.1 = q.id := hf q pr' hfq
          have h2 : pr.1 = p.id := hf p pr hf2
          apply hnd.1
          rw [← h2, ← hfst, h1]
          exact List.mem_map_of_mem _ hq

/-- C8.  For a `PENDING` candidate of the document: when some same-user
same-date ledger entry is within 0.01 of its amount, the candidate is
transitioned to `DUPLICATE` with a link to the first matched entry; when
every same-user same-date entry differs by at least 0.02, the candidate is
left untouched, still `PENDING`. -/
theorem duplicate_check_threshold
    (st : AppState) (docId userId : String) (c : PendingTransaction)
    (hnd : (st.cands.map (fun c => c.id)).Nodup)
    (hc : c ∈ st.cands) (hdoc : c.documentId = docId)
    (hst : c.status = CandStatus.PENDING) :
    (∀ m ms, matchesFor st.ledger userId c = m :: ms →
      { c with status := CandStatus.DUPLICATE, duplicateOfId := some m.id } ∈
        (check_duplicates st docId userId).1.cands)
    ∧ ((∃ t ∈ st.ledger, t.userId = userId ∧ t.date = c.date ∧
          |t.amount - c.amount| < 1 / 100) → matchesFor st.ledger userId c ≠ [])
    ∧ ((∀ t ∈ st.ledger, t.userId = userId → t.date = c.date →
          2 / 100 ≤ |t.amount - c.amount|) →
        c ∈ (check_duplicates st docId userId).1.cands) := by
  have hcpend : c ∈ st.cands.filter
      (fun c => c.documentId == docId && c.status == CandStatus.PENDING) :=
    List.mem_filter.mpr ⟨hc, by simp [hdoc, hst]⟩
  have hpendnd : ((st.cands.filter
      (fun c => c.documentId == docId && c.status == CandStatus.PENDING)).map
        (fun c => c.id)).Nodup :=
    List.Nodup.sublist (List.Sublist.map _ (List.filter_sublist st.cands)) hnd
  have hf : ∀ (p : PendingTransaction) (pr : String × String),
      (match matchesFor st.ledger userId p with
        | [] => none
        | m :: _ => some (p.id, m.id)) = some pr → pr.1 = p.id := by
    intro p pr h
    cases hmq : matchesFor st.ledger userId p with
    | nil => rw [hmq] at h; exact Option.noConfusion h
    | cons m ms =>
        rw [hmq] at h
        cases Option.some.inj h
        rfl
  have hdupnd := nodup_filterMap_fst _ hf _ hpendnd
  refine ⟨?_, ?_, ?_⟩
  · intro m ms hm
    have hmem : (c.id, m.id) ∈ (st.cands.filter
        (fun c => c.documentId == docId && c.status == CandStatus.PENDING)).filterMap
          (fun p => match matchesFor st.ledger userId p with
            | [] => none
            | m :: _ => some (p.id, m.id)) :=
      List.mem_filterMap.mpr ⟨c, hcpend, by rw [hm]⟩
    exact markDuplicates_hit m.id _ st.cands c hc hmem hdupnd
  · rintro ⟨t, ht, h1, h2, h3⟩
    refine List.ne_nil_of_mem (a := t) ?_
    refine List.mem_filter.mpr ⟨ht, ?_⟩
    simp only [Bool.and_eq_true, beq_iff_eq, decide_eq_true_eq]
    exact ⟨⟨h1, h2⟩, h3⟩
  · intro hfar
    have hmnil : matchesFor st.ledger userId c = [] := by
      rw [matchesFor, List.filter_eq_nil_iff]
      intro t ht hcond
      simp only [Bool.and_eq_true, beq_iff_eq, decide_eq_true_eq] at hcond
      obtain ⟨⟨h1, h2⟩, h3⟩ := hcond
      have := hfar t ht h1 h2
      linarith
    have hnotin : ∀ pr ∈ (st.cands.filter
        (fun c => c.documentId == docId && c.status == CandStatus.PENDING)).filterMap
          (fun p => match matchesFor st.ledger userId p with
            | [] => none
            | m :: _ => some (p.id, m.id)), pr.1 ≠ c.id := by
      intro pr hpr heq
      obtain ⟨q, hq, hfq⟩ := List.mem_filterMap.mp hpr
      have hq' : q ∈ st.cands := (List.mem_filter.mp hq).1
      have hqid : q.id = pr.1 := (hf q pr hfq).symm
      have hqc : q = c := List.inj_on_of_nodup_map hnd hq' hc (by rw [hqid, heq])
      subst hqc
      rw [hmnil] at hfq
      exact Option.noConfusion hfq
    exact markDuplicates_untouched _ st.cands c hc hnotin

/-- Ledger entry for the C8 witness: amount 5.005. -/
def c8t1 : LedgerTransaction :=
  { id := "L1", description := .str "old", amount := mkRat 1001 200, type := "expense",
    category := .str "Other", date := "2024-01-02", budgetId := none, userId := "u1" }

/-- Candidate within 0.005 of `c8t1`. -/
def c8c1 : PendingTransaction :=
  { id := "p1", documentId := "d1", date := "2024-01-02", description := .str "a",
    originalDescription := .str "a", amount := 5, type := "EXPENSE", category := .null,
    confidence := 1, status := .PENDING }

/-- Candidate whose amount differs from every same-date entry by ≥ 0.02. -/
def c8c2 : PendingTransaction :=
  { id := "p2", documentId := "d1", date := "2024-01-02", description := .str "b",
    originalDescription := .str "b", amount := 7, type := "EXPENSE", category := .null,
    confidence := 1, status := .PENDING }

/-- State for the C8 witness. -/
def c8wState : AppState := { docs := [], cands := [c8c1, c8c2], ledger := [c8t1] }

/-- C8 witness: `duplicate_check_threshold` applied at a concrete state —
the near candidate is flagged `DUPLICATE` linked to the matched ledger
row, the far one stays untouched. -/
theorem duplicate_check_threshold_witness :
    { c8c1 with status := CandStatus.DUPLICATE, duplicateOfId := some c8t1.id } ∈
      (check_duplicates c8wState "d1" "u1").1.cands
    ∧ c8c2 ∈ (check_duplicates c8wState "d1" "u1").1.cands := by
  constructor
  · have hcond : (c8t1.userId == "u1" && c8t1.date == c8c1.date &&
        decide (|c8t1.amount - c8c1.amount| < 1 / 100)) = true := by
      simp only [Bool.and_eq_true, beq_iff_eq, decide_eq_true_eq]
      refine ⟨⟨rfl, rfl⟩, ?_⟩
      have hval : (mkRat 1001 200 : ℚ) = 1001 / 200 := by
        rw [Rat.mkRat_eq_divInt, Rat.divInt_eq_div]
        norm_num
      rw [show c8t1.amount = mkRat 1001 200 from rfl, show c8c1.amount = (5 : ℚ) from rfl,
        hval, show (1001 : ℚ) / 200 - 5 = 1 / 200 by norm_num,
        abs_of_nonneg (by norm_num : (0 : ℚ) ≤ 1 / 200)]
      norm_num
    have hm : matchesFor c8wState.ledger "u1" c8c1 = [c8t1] := by
      show List.filter _ [c8t1] = [c8t1]
      rw [List.filter_cons, if_pos hcond]
      rfl
    exact (duplicate_check_threshold c8wState "d1" "u1" c8c1 (by decide)
      (List.Mem.head _) rfl rfl).1 c8t1 [] hm
  · refine (duplicate_check_threshold c8wState "d1" "u1" c8c2 (by decide)
      (List.Mem.tail _ (List.Mem.head _)) rfl rfl).2.2 ?_
    intro t ht
    have ht' : t ∈ [c8t1] := ht
    rw [List.mem_singleton] at ht'
    subst ht'
    intro _ _
    show (2 : ℚ) / 100 ≤ |c8t1.amount - c8c2.amount|
    have hval : (mkRat 1001 200 : ℚ) = 1001 / 200 := by
      rw [Rat.mkRat_eq_divInt, Rat.divInt_eq_div]
      norm_num
    rw [show c8t1.amount = mkRat 1001 200 from rfl, show c8c2.amount = (7 : ℚ) from rfl,
      hval, show (1001 : ℚ) / 200 - 7 = -(399 / 200) by norm_num, abs_neg,
      abs_of_nonneg (by norm_num : (0 : ℚ) ≤ 399 / 200)]
    norm_num

/-- The ledger rows the import loop inserts for `ps`, starting at index
`i` of the uuid stream. -/
def importRowsOf (b : Option String) (u : String) (fresh : Nat → String) :
    Nat → List PendingTransaction → List LedgerTransaction
  | _, [] => []
  | i, p :: ps => mkLedgerRow b u (fresh i) p :: importRowsOf b u fresh (i + 1) ps

theorem importRowsOf_length (b : Option String) (u : String) (fresh : Nat → String) :
    ∀ ps i, (importRowsOf b u fresh i ps).length = ps.length := by
  intro ps
  induction ps with
  | nil => intro i; rfl
  | cons p ps ih => intro i; simp [importRowsOf, ih]

theorem importRowsOf_mem (b : Option String) (u : String) (fresh : Nat → String) :
    ∀ ps i p, p ∈ ps → ∃ k, mkLedgerRow b u (fresh k) p ∈ importRowsOf b u fresh i ps := by
  intro ps
  induction ps with
  | nil => intro i p hp; exact absurd hp (List.not_mem_nil p)
  | cons q ps ih =>
      intro i p hp
      rcases List.mem_cons.mp hp with heq | hmem
      · subst heq
        exact ⟨i, List.mem_cons_self _ _⟩
      · obtain ⟨k, hk⟩ := ih (i + 1) p hmem
        exact ⟨k, List.mem_cons_of_mem _ hk⟩

theorem runImportLoop_ledger (b : Option String) (u : String) (fresh : Nat → String) :
    ∀ ps i ledger cands,
      (runImportLoop b u fresh i ps ledger cands).1 =
        ledger ++ importRowsOf b u fresh i ps := by
  intro ps
  induction ps with
  | nil => intro i ledger cands; simp [runImportLoop, importRowsOf]
  | cons p ps ih =>
      intro i ledger cands
      show (runImportLoop b u fresh (i + 1) ps (ledger ++ [mkLedgerRow b u (fresh i) p]) _).1 = _
      rw [ih]
      simp [importRowsOf]

/-- The per-row effect of the whole import loop: the first entry of `ps`
sharing the row's id marks it imported with that entry's fresh id. -/
def markImportedAll (fresh : Nat → String) : Nat → List PendingTransaction →
    PendingTransaction → PendingTransaction
  | _, [], c => c
  | i, p :: ps, c =>
      if c.id == p.id then markImported (fresh i) c
      else markImportedAll fresh (i + 1) ps c

theorem markImportedAll_not_mem (fresh : Nat → String) :
    ∀ ps i (c : PendingTransaction), c.id ∉ ps.map (fun p => p.id) →
      markImportedAll fresh i ps c = c := by
  intro ps
  induction ps with
  | nil => intro i c _; rfl
  | cons p ps ih =>
      intro i c hni
      rw [List.map_cons, List.mem_cons] at hni
      push_neg at hni
      show (if c.id == p.id then markImported (fresh i) c
        else markImportedAll fresh (i + 1) ps c) = c
      rw [if_neg (by simp [hni.1]), ih (i + 1) c hni.2]

theorem markImportedAll_id (fresh : Nat → String) :
    ∀ ps i (c : PendingTransaction), (markImportedAll fresh i ps c).id = c.id := by
  intro ps
  induction ps with
  | nil => intro i c; rfl
  | cons p ps ih =>
      intro i c
      show (if c.id == p.id then markImported (fresh i) c
        else markImportedAll fresh (i + 1) ps c).id = c.id
      by_cases h : (c.id == p.id) = true
      · rw [if_pos h]; rfl
      · rw [if_neg h]; exact ih (i + 1) c

theorem markImportedAll_mem_imported (fresh : Nat → String) :
    ∀ ps i (c : PendingTransaction), c ∈ ps →
      (markImportedAll fresh i ps c).status = CandStatus.IMPORTED ∧
      (markImportedAll fresh i ps c).importedTransactionId.isSome = true := by
  intro ps
  induction ps with
  | nil => intro i c hc; exact absurd hc (List.not_mem_nil c)
  | cons p ps ih =>
      intro i c hc
      show (if c.id == p.id then markImported (fresh i) c
          else markImportedAll fresh (i + 1) ps c).status = CandStatus.IMPORTED ∧
        (if c.id == p.id then markImported (fresh i) c
          else markImportedAll fresh (i + 1) ps c).importedTransactionId.isSome = true
      by_cases h : (c.id == p.id) = true
      · rw [if_pos h]
        exact ⟨rfl, rfl⟩
      · rw [if_neg h]
        rcases List.mem_cons.mp hc with heq | hmem
        · subst heq
          exact absurd (by simp) h
        · exact ih (i + 1) c hmem

theorem runImportLoop_cands (b : Option String) (u : String) (fresh : Nat → String) :
    ∀ ps i ledger cands, (ps.map (fun p => p.id)).Nodup →
      (runImportLoop b u fresh i ps ledger cands).2 =
        cands.map (markImportedAll fresh i ps) := by
  intro ps
  induction ps with
  | nil =>
      intro i ledger cands _
      show cands = cands.map (markImportedAll fresh i [])
      rw [show markImportedAll fresh i [] = fun c => c from rfl, List.map_id']
  | cons p ps ih =>
      intro i ledger cands hnd
      rw [List.map_cons, List.nodup_cons] at hnd
      show (runImportLoop b u fresh (i + 1) ps _
        (cands.map (fun c => if c.id == p.id then markImported (fresh i) c else c))).2 = _
      rw [ih (i + 1) _ _ hnd.2, List.map_map]
      refine List.map_congr_left (fun c _ => ?_)
      show markImportedAll fresh (i + 1) ps
        (if c.id == p.id then markImported (fresh i) c else c) = _
      by_cases h : (c.id == p.id) = true
      · rw [if_pos h]
        have hid : (markImported (fresh i) c).id = c.id := rfl
        have hni : (markImported (fresh i) c).id ∉ ps.map (fun p => p.id) := by
          rw [hid, beq_iff_eq.mp h]
          exact hnd.1
        rw [markImportedAll_not_mem fresh ps (i + 1) _ hni]
        show _ = (if c.id == p.id then markImported (fresh i) c
          else markImportedAll fresh (i + 1) ps c)
        rw [if_pos h]
      · rw [if_neg h]
        show _ = (if c.id == p.id then markImported (fresh i) c
          else markImportedAll fresh (i + 1) ps c)
        rw [if_neg h]

/-- C3.  Import selects exactly the `APPROVED` candidates of the document:
with none, it fails with the no-approved-transactions error and changes
nothing; otherwise it inserts exactly one ledger row per approved
candidate (built by `mkLedgerRow`: resolved category, mapped type, same
amount/date/description, the document owner's user id), flips exactly
those candidates to `IMPORTED` with the fresh ledger id recorded, leaves
candidates in other statuses untouched, and marks the document
`IMPORTED`. -/
theorem import_commits_exactly_approved
    (st : AppState) (docId : String) (bid : Option String) (fresh : Nat → String)
    (doc : BankDocument)
    (hfind : st.docs.find? (fun d => d.id == docId) = some doc)
    (hnd : (st.cands.map (fun c => c.id)).Nodup) :
    (st.cands.filter (fun c => c.documentId == docId && c.status == CandStatus.APPROVED) = [] →
      import_transactions st docId bid fresh =
        (st, .error (400, "No approved transactions to import")))
    ∧ (∀ approved,
        st.cands.filter
          (fun c => c.documentId == docId && c.status == CandStatus.APPROVED) = approved →
        approved ≠ [] →
        (import_transactions st docId bid fresh).1.ledger =
            st.ledger ++ importRowsOf bid doc.userId fresh 0 approved
        ∧ ((import_transactions st docId bid fresh).1.ledger.length =
            st.ledger.length + approved.length)
        ∧ (∀ p ∈ approved, ∃ k, mkLedgerRow bid doc.userId (fresh k) p ∈
            (import_transactions st docId bid fresh).1.ledger)
        ∧ (import_transactions st docId bid fresh).1.cands =
            st.cands.map (markImportedAll fresh 0 approved)
        ∧ (∀ c ∈ st.cands, c.documentId = docId → c.status = CandStatus.APPROVED →
            ∃ c' ∈ (import_transactions st docId bid fresh).1.cands, c'.id = c.id ∧
              c'.status = CandStatus.IMPORTED ∧ c'.importedTransactionId.isSome = true)
        ∧ (∀ c ∈ st.cands, ¬(c.documentId = docId ∧ c.status = CandStatus.APPROVED) →
            c ∈ (import_transactions st docId bid fresh).1.cands)
        ∧ (∃ d', (import_transactions st docId bid fresh).1.docs.find?
              (fun d => d.id == docId) = some d' ∧ d'.status = DocStatus.IMPORTED)
        ∧ (import_transactions st docId bid fresh).2 =
            .ok { imported_count := approved.length,
                  transaction_ids := (List.range approved.length).map fresh }) := by
  constructor
  · intro hempty
    exact import_transactions_eq_empty st docId bid fresh doc hfind
      (by rw [hempty]; rfl)
  · intro approved hfil hne
    have hempty : (st.cands.filter
        (fun c => c.documentId == docId && c.status == CandStatus.APPROVED)).isEmpty = false := by
      rw [hfil]
      cases approved with
      | nil => exact absurd rfl hne
      | cons a l => rfl
    have hrun := import_transactions_eq_run st docId bid fresh doc hfind hempty
    have happnd : (approved.map (fun c => c.id)).Nodup := by
      rw [← hfil]
      exact List.Nodup.sublist (List.Sublist.map _ (List.filter_sublist st.cands)) hnd
    have hledger : (import_transactions st docId bid fresh).1.ledger =
        st.ledger ++ importRowsOf bid doc.userId fresh 0 approved := by
      rw [hrun]
      show (runImportLoop bid doc.userId fresh 0 _ st.ledger st.cands).1 = _
      rw [hfil, runImportLoop_ledger]
    have hcands : (import_transactions st docId bid fresh).1.cands =
        st.cands.map (markImportedAll fresh 0 approved) := by
      rw [hrun]
      show (runImportLoop bid doc.userId fresh 0 _ st.ledger st.cands).2 = _
      rw [hfil, runImportLoop_cands bid doc.userId fresh approved 0 st.ledger st.cands happnd]
    refine ⟨hledger, ?_, ?_, hcands, ?_, ?_, ?_, ?_⟩
    · rw [hledger]
      simp [importRowsOf_length]
    · intro p hp
      obtain ⟨k, hk⟩ := importRowsOf_mem bid doc.userId fresh approved 0 p hp
      exact ⟨k, by rw [hledger]; exact List.mem_append_right _ hk⟩
    · intro c hc hcdoc hcst
      have hcap : c ∈ approved := by
        rw [← hfil]
        exact List.mem_filter.mpr ⟨hc, by simp [hcdoc, hcst]⟩
      refine ⟨markImportedAll fresh 0 approved c, ?_, ?_, ?_⟩
      · rw [hcands]
        exact List.mem_map_of_mem _ hc
      · exact markImportedAll_id fresh approved 0 c
      · exact markImportedAll_mem_imported fresh approved 0 c hcap
    · intro c hc hnot
      have hcni : c.id ∉ approved.map (fun p => p.id) := by
        intro hmem
        obtain ⟨q, hq, hqid⟩ := List.mem_map.mp hmem
        have hq' : q ∈ st.cands := by
          rw [← hfil] at hq
          exact (List.mem_filter.mp hq).1
        have : q = c := List.inj_on_of_nodup_map hnd hq' hc hqid
        subst this
        rw [← hfil] at hq
        have := (List.mem_filter.mp hq).2
        simp only [Bool.and_eq_true, beq_iff_eq] at this
        exact hnot ⟨this.1, this.2⟩
      rw [hcands]
      exact List.mem_map.mpr ⟨c, hc, markImportedAll_not_mem fresh approved 0 c hcni⟩
    · rw [hrun]
      show ∃ d', (st.docs.map (fun d =>
        if d.id == docId then { d with status := DocStatus.IMPORTED } else d)).find?
          (fun d => d.id == docId) = some d' ∧ d'.status = DocStatus.IMPORTED
      rw [docs_find?_map_update, hfind]
      · exact ⟨_, rfl, rfl⟩
      · intro d; rfl
    · rw [hrun]
      show Except.ok _ = Except.ok _
      rw [hfil]

/-- Document for the C3 scenario. -/
def c3doc : BankDocument := { id := "d1", userId := "u1", filePath := "/x", status := .EXTRACTED }

/-- Approved candidates of the C3 scenario. -/
def c3c1 : PendingTransaction :=
  { id := "p1", documentId := "d1", date := "2024-01-03", description := .str "a",
    originalDescription := .str "a", amount := 1, type := "EXPENSE", category := .str "Dining",
    confidence := 1, status := .APPROVED }

/-- Second approved candidate, carrying a user-edited category. -/
def c3c2 : PendingTransaction :=
  { c3c1 with id := "p2", userCategory := some "Travel" }

/-- Third approved candidate, with no category at all. -/
def c3c3 : PendingTransaction :=
  { c3c1 with id := "p3", category := .null, type := "INCOME" }

/-- The rejected candidate of the scenario. -/
def c3c4 : PendingTransaction := { c3c1 with id := "p4", status := .REJECTED }

/-- The candidate left pending in the scenario. -/
def c3c5 : PendingTransaction := { c3c1 with id := "p5", status := .PENDING }

/-- State for the C3 scenario: 3 approved, 1 rejected, 1 pending. -/
def c3st : AppState :=
  { docs := [c3doc], cands := [c3c1, c3c2, c3c3, c3c4, c3c5], ledger := [] }

/-- Deterministic uuid stream for the C3 scenario. -/
def c3fresh : Nat → String := fun i => String.mk ['L', Nat.digitChar (i % 10)]

/-- C3 witness: the spec scenario run through
`import_commits_exactly_approved` — exactly 3 ledger rows, the pending
candidate untouched, the document `IMPORTED`, and the success response. -/
theorem import_commits_exactly_approved_witness :
    (import_transactions c3st "d1" none c3fresh).1.ledger.length = 3
    ∧ c3c5 ∈ (import_transactions c3st "d1" none c3fresh).1.cands
    ∧ ((import_transactions c3st "d1" none c3fresh).1.docs.find?
        (fun d => d.id == "d1")).map (fun d => d.status) = some DocStatus.IMPORTED
    ∧ (import_transactions c3st "d1" none c3fresh).2 =
        .ok { imported_count := 3, transaction_ids := ["L0", "L1", "L2"] } := by
  have h2 := (import_commits_exactly_approved c3st "d1" none c3fresh c3doc rfl
      (by decide)).2 [c3c1, c3c2, c3c3] rfl (by intro hh; exact List.noConfusion hh)
  refine ⟨?_, ?_, ?_, ?_⟩
  · rw [h2.1]
    rfl
  · exact h2.2.2.2.2.2.1 c3c5
      (List.Mem.tail _ (List.Mem.tail _ (List.Mem.tail _ (List.Mem.tail _ (List.Mem.head _)))))
      (by decide)
  · obtain ⟨d', hf, hs⟩ := h2.2.2.2.2.2.2.1
    rw [hf]
    simp [hs]
  · rw [h2.2.2.2.2.2.2.2]
    rfl

theorem cands_find?_map_update (f : PendingTransaction → PendingTransaction)
    (hf : ∀ c, (f c).id = c.id) (i : String) (l : List PendingTransaction) :
    (l.map (fun c => if c.id == i then f c else c)).find? (fun c => c.id == i) =
      (l.find? (fun c => c.id == i)).map f := by
  induction l with
  | nil => rfl
  | cons a l ih =>
      simp only [List.map_cons]
      by_cases h : a.id = i
      · have hb : (a.id == i) = true := by simp [h]
        rw [if_pos hb]
        simp [List.find?_cons, hb, hf]
      · have hb : (a.id == i) = false := by simp [h]
        rw [if_neg (by simp [hb])]
        simp only [List.find?_cons, hb]
        exact ih

/-- C10.  The import committer maps a stored candidate's type by the
two-way test `"expense" iff the stored value is exactly 'EXPENSE', else
"income"`; and the update route stores any client-supplied type string
upper-cased with no validation, so a candidate updated to an arbitrary
type (e.g. `"transfer"`, stored `'TRANSFER'`) is imported into the ledger
as income. -/
theorem import_type_mapping_unvalidated :
    (∀ (b : Option String) (u nid : String) (p : PendingTransaction),
        ((mkLedgerRow b u nid p).type = "expense" ↔ p.type = "EXPENSE")
        ∧ ((mkLedgerRow b u nid p).type = "income" ↔ p.type ≠ "EXPENSE"))
    ∧ (∀ st tid u row s, u.type = some s →
        st.cands.find? (fun c => c.id == tid) = some row →
        row.status ≠ CandStatus.IMPORTED →
        (update_transaction st tid u).1.cands.find? (fun c => c.id == tid) =
          some (applyUpdate u row) ∧ (applyUpdate u row).type = pyUpper s)
    ∧ (∀ (b : Option String) (u nid : String) (p : PendingTransaction),
        p.type ≠ "EXPENSE" → (mkLedgerRow b u nid p).type = "income") := by
  have hmap : ∀ (b : Option String) (u nid : String) (p : PendingTransaction),
      (mkLedgerRow b u nid p).type = if p.type = "EXPENSE" then "expense" else "income" := by
    intro b u nid p
    rfl
  refine ⟨fun b u nid p => ?_, ?_, fun b u nid p hne => by rw [hmap, if_neg hne]⟩
  · rw [hmap]
    by_cases h : p.type = "EXPENSE"
    · rw [if_pos h]
      constructor
      · exact ⟨fun _ => h, fun _ => rfl⟩
      · constructor
        · intro habs
          exact absurd habs (by decide)
        · intro hne
          exact absurd h hne
    · rw [if_neg h]
      constructor
      · constructor
        · intro habs
          exact absurd habs (by decide)
        · intro he
          exact absurd he h
      · exact ⟨fun _ => h, fun _ => rfl⟩
  · intro st tid u row s hts hf hi
    rw [update_transaction_eq_apply st tid u row hf hi]
    constructor
    · show (st.cands.map (fun c => if c.id == tid then applyUpdate u c else c)).find?
        (fun c => c.id == tid) = _
      rw [cands_find?_map_update (applyUpdate u) (fun c => rfl) tid, hf]
      rfl
    · show (applyUpdate u row).type = pyUpper s
      rw [applyUpdate]
      simp only [hts]

/-- Document for the C10 witness. -/
def c10doc : BankDocument := { id := "d1", userId := "u1", filePath := "/x", status := .EXTRACTED }

/-- Candidate for the C10 witness. -/
def c10c : PendingTransaction :=
  { id := "p1", documentId := "d1", date := "2024-01-03", description := .str "a",
    originalDescription := .str "a", amount := 4, type := "EXPENSE", category := .null,
    confidence := 1, status := .PENDING }

/-- State for the C10 witness. -/
def c10st : AppState := { docs := [c10doc], cands := [c10c], ledger := [] }

/-- Client update setting an arbitrary type. -/
def c10upd : TransactionUpdate := { type := some "transfer" }

/-- C10 witness: the update stores `"TRANSFER"`, and after approval
the import inserts the ledger row with type `"income"`. -/
theorem import_type_mapping_unvalidated_witness :
    (applyUpdate c10upd c10c).type = "TRANSFER"
    ∧ ((import_transactions (approve_transaction
          (update_transaction c10st "p1" c10upd).1 "p1").1 "d1" none
          (fun _ => "L0")).1.ledger.map (fun t => t.type)) = ["income"]
    ∧ (mkLedgerRow none "u1" "L0" { c10c with type := "TRANSFER" }).type = "income" := by
  have h2 := import_type_mapping_unvalidated.2.1 c10st "p1" c10upd c10c "transfer" rfl rfl
    (by decide)
  have h3 := import_type_mapping_unvalidated.2.2 none "u1" "L0"
    { c10c with type := "TRANSFER" } (by decide)
  exact ⟨by rw [h2.2]; rfl, rfl, h3⟩

theorem candRowsOf_length (fresh : Nat → String) (docId : String) :
    ∀ ts i, (candRowsOf fresh docId i ts).length = ts.length := by
  intro ts
  induction ts with
  | nil => intro i; rfl
  | cons t ts ih => intro i; simp [candRowsOf, ih]

theorem candRowsOf_pending (fresh : Nat → String) (docId : String) :
    ∀ ts i, ∀ c ∈ candRowsOf fresh docId i ts,
      c.status = CandStatus.PENDING ∧ c.documentId = docId := by
  intro ts
  induction ts with
  | nil => intro i c hc; simp [candRowsOf] at hc
  | cons t ts ih =>
      intro i c hc
      rcases List.mem_cons.mp hc with heq | hmem
      · subst heq
        exact ⟨rfl, rfl⟩
      · exact ih (i + 1) c hmem

/-- C1.  Processing a `PENDING`/`FAILED` document is all-or-nothing: when
every stage succeeds the document becomes `EXTRACTED` with candidate
count, backend name/model, elapsed time and statement period persisted,
and the accepted candidates are appended in one batch, each stored
`PENDING`; when any stage fails (file read, an explicitly requested
unavailable backend, or a failed extraction) the document becomes `FAILED`
with the error recorded and the candidate table is left exactly as it
was. -/
theorem process_document_all_or_nothing
    (st : AppState) (docId : String) (lp : Option String) (models : String → String)
    (avail : String → Bool) (dflt : ProviderM) (readF : Except String Unit)
    (exres : ExtractionResult) (fresh : Nat → String) (doc : BankDocument)
    (hfind : st.docs.find? (fun d => d.id == docId) = some doc)
    (hstat : doc.status = DocStatus.PENDING ∨ doc.status = DocStatus.FAILED)
    (herr : exres.success = false → exres.error.isSome = true) :
    (readF = .ok () →
     (∀ p, lp = some p → providerAvailable avail (create_llm_provider models p) = true) →
     exres.success = true →
      ∃ d', (process_document st docId lp models avail dflt readF exres fresh).1.docs.find?
          (fun d => d.id == docId) = some d'
        ∧ d'.status = DocStatus.EXTRACTED
        ∧ d'.transactionCount = some exres.transactions.length
        ∧ d'.llmProvider.isSome = true ∧ d'.llmModel.isSome = true
        ∧ d'.processingTimeMs = some exres.processing_time_ms
        ∧ d'.statementStartDate = exres.statement_info.statement_start
        ∧ d'.statementEndDate = exres.statement_info.statement_end
        ∧ (process_document st docId lp models avail dflt readF exres fresh).1.cands =
            st.cands ++ candRowsOf fresh docId 0 exres.transactions
        ∧ (candRowsOf fresh docId 0 exres.transactions).length = exres.transactions.length
        ∧ (∀ c ∈ candRowsOf fresh docId 0 exres.transactions,
            c.status = CandStatus.PENDING ∧ c.documentId = docId))
    ∧ ((readF = .ok () →
        (∀ p, lp = some p → providerAvailable avail (create_llm_provider models p) = true) →
        exres.success = false) →
      ∃ d', (process_document st docId lp models avail dflt readF exres fresh).1.docs.find?
          (fun d => d.id == docId) = some d'
        ∧ d'.status = DocStatus.FAILED
        ∧ d'.processingError.isSome = true
        ∧ (process_document st docId lp models avail dflt readF exres fresh).1.cands =
            st.cands) := by
  constructor
  · intro hread hprov hsucc
    obtain ⟨prov, hsel⟩ := selectProvider_ok models avail dflt lp hprov
    rw [hread, process_document, hfind]
    simp only [if_pos hstat, hsel]
    rw [if_pos hsucc]
    rw [docs_find?_map_update, docs_find?_map_update, hfind]
    · refine ⟨_, rfl, rfl, rfl, rfl, rfl, rfl, rfl, rfl, rfl,
        candRowsOf_length fresh docId exres.transactions 0,
        candRowsOf_pending fresh docId exres.transactions 0⟩
    · intro d; rfl
    · intro d; rfl
  · intro hfail
    cases hread : readF with
    | error e =>
        rw [process_document, hfind]
        simp only [if_pos hstat, processFail]
        rw [docs_find?_map_update, docs_find?_map_update, hfind]
        · refine ⟨_, rfl, rfl, rfl, trivial⟩
        · intro d; rfl
        · intro d; rfl
    | ok u =>
        cases u
        cases hsel0 : selectProvider models avail dflt lp with
        | error e =>
            rw [process_document, hfind]
            simp only [if_pos hstat, hsel0, processFail]
            rw [docs_find?_map_update, docs_find?_map_update, hfind]
            · refine ⟨_, rfl, rfl, rfl, trivial⟩
            · intro d; rfl
            · intro d; rfl
        | ok prov =>
            have hprovok : ∀ p, lp = some p →
                providerAvailable avail (create_llm_provider models p) = true := by
              intro p hp
              rw [hp] at hsel0
              by_cases hv : providerAvailable avail (create_llm_provider models p) = true
              · exact hv
              · rw [selectProvider] at hsel0
                rw [if_neg hv] at hsel0
                exact Except.noConfusion hsel0
            have hsucc : exres.success = false := hfail hread hprovok
            rw [process_document, hfind]
            simp only [if_pos hstat, hsel0]
            rw [if_neg (by rw [hsucc]; exact Bool.false_ne_true)]
            rw [docs_find?_map_update, docs_find?_map_update, hfind]
            · refine ⟨_, rfl, rfl, herr hsucc, rfl⟩
            · intro d; rfl
            · intro d; rfl

/-- Document and state for the C1 witness. -/
def c1doc : BankDocument := { id := "d1", userId := "u1", filePath := "/x", status := .PENDING }

/-- State for the C1 witness. -/
def c1st : AppState := { docs := [c1doc], cands := [], ledger := [] }

/-- One accepted candidate for the C1 witness. -/
def c1tx : ExtractedTransaction :=
  { date := "2024-01-05", description := .str "x", original_description := .str "x",
    amount := 3, type := "expense", category := .null, confidence := 1, line_number := 1 }

/-- A successful extraction result. -/
def c1ok : ExtractionResult :=
  { success := true, statement_info := {}, transactions := [c1tx], raw_llm_response := "r" }

/-- A failed extraction result. -/
def c1bad : ExtractionResult :=
  { success := false, statement_info := {}, transactions := [], raw_llm_response := "r",
    error := some "boom" }

/-- Fresh-id stream for the C1 witness. -/
def c1fresh : Nat → String := fun i => String.mk ['P', Nat.digitChar (i % 10)]

/-- C1 witness: `process_document_all_or_nothing` applied at a concrete
state, once with a successful extraction and once with a failed one. -/
theorem process_document_all_or_nothing_witness :
    (((process_document c1st "d1" none (fun _ => "m") (fun _ => true)
        ⟨"mock", "Mock", "m"⟩ (.ok ()) c1ok c1fresh).1.docs.find?
        (fun d => d.id == "d1")).map (fun d => (d.status, d.transactionCount)) =
      some (DocStatus.EXTRACTED, some 1))
    ∧ (process_document c1st "d1" none (fun _ => "m") (fun _ => true)
        ⟨"mock", "Mock", "m"⟩ (.ok ()) c1ok c1fresh).1.cands.length = 1
    ∧ (((process_document c1st "d1" none (fun _ => "m") (fun _ => true)
        ⟨"mock", "Mock", "m"⟩ (.ok ()) c1bad c1fresh).1.docs.find?
        (fun d => d.id == "d1")).map (fun d => d.status) = some DocStatus.FAILED)
    ∧ (process_document c1st "d1" none (fun _ => "m") (fun _ => true)
        ⟨"mock", "Mock", "m"⟩ (.ok ()) c1bad c1fresh).1.cands = [] := by
  have h := process_document_all_or_nothing c1st "d1" none (fun _ => "m") (fun _ => true)
    ⟨"mock", "Mock", "m"⟩ (.ok ()) c1ok c1fresh c1doc rfl (Or.inl rfl)
    (fun hfalse => Bool.noConfusion hfalse)
  obtain ⟨d', hf, hs, htc, -, -, hpt, -, -, hcands, -, -⟩ :=
    h.1 rfl (fun p hp => Option.noConfusion hp) rfl
  have h2 := process_document_all_or_nothing c1st "d1" none (fun _ => "m") (fun _ => true)
    ⟨"mock", "Mock", "m"⟩ (.ok ()) c1bad c1fresh c1doc rfl (Or.inl rfl) (fun _ => rfl)
  obtain ⟨d2, hf2, hs2, -, hc2⟩ := h2.2 (fun _ _ => rfl)
  refine ⟨?_, ?_, ?_, ?_⟩
  · rw [hf]
    simp only [Option.map_some']
    rw [hs, htc]
    rfl
  · rw [hcands]
    rfl
  · rw [hf2]
    simp only [Option.map_some']
    rw [hs2]
  · rw [hc2]
    rfl

/-- C9 (documents the code bug).  When the caller explicitly requests a
backend whose availability check fails, both `extract` and `process` raise
`HTTPException(400, ...)` inside their own `try` blocks; the blanket
`except Exception` catches that very exception and re-raises it as HTTP
500 (`"Extraction failed: 400: ..."` / `"Processing failed: 400: ..."`),
so the caller observes a server error, not the intended client error.
There is no silent fallback: `process` marks the document `FAILED`. -/
theorem requested_unavailable_provider_returns_500
    (p : String) (models : String → String) (avail : String → Bool) (dflt : ProviderM)
    (exres : ExtractionResult) (st : AppState) (docId : String) (fresh : Nat → String)
    (doc : BankDocument)
    (hun : providerAvailable avail (create_llm_provider models p) = false)
    (hfind : st.docs.find? (fun d => d.id == docId) = some doc)
    (hstat : doc.status = DocStatus.PENDING ∨ doc.status = DocStatus.FAILED) :
    extract_transactions true 0 (some p) models avail dflt exres =
      .error (500, "Extraction failed: " ++
        pyStrExc (.http 400 ("Provider '" ++ p ++ "' is not available")))
    ∧ (process_document st docId (some p) models avail dflt (.ok ()) exres fresh).2 =
      .error (500, "Processing failed: " ++
        pyStrExc (.http 400 ("Provider '" ++ p ++ "' is not available")))
    ∧ ∃ d', (process_document st docId (some p) models avail dflt (.ok ())
          exres fresh).1.docs.find? (fun d => d.id == docId) = some d' ∧
        d'.status = DocStatus.FAILED ∧
        d'.processingError =
          some (pyStrExc (.http 400 ("Provider '" ++ p ++ "' is not available"))) := by
  have hsel : selectProvider models avail dflt (some p) =
      .error (.http 400 ("Provider '" ++ p ++ "' is not available")) := by
    rw [selectProvider]
    rw [if_neg (by rw [hun]; exact Bool.false_ne_true)]
  refine ⟨?_, ?_, ?_⟩
  · rw [extract_transactions, if_neg (by simp), if_neg (by norm_num)]
    rw [hsel]
  · rw [process_document, hfind]
    simp only [if_pos hstat, hsel, processFail]
  · rw [process_document, hfind]
    simp only [if_pos hstat, hsel, processFail]
    rw [docs_find?_map_update, docs_find?_map_update, hfind]
    · refine ⟨_, rfl, rfl, rfl⟩
    · intro d; rfl
    · intro d; rfl

/-- Failed extraction result for the C9 witness. -/
def c9res : ExtractionResult :=
  { success := false, statement_info := {}, transactions := [], raw_llm_response := "",
    error := some "x" }

/-- Document and state for the C9 witness. -/
def c9doc : BankDocument := { id := "d1", userId := "u1", filePath := "/x", status := .PENDING }

/-- State for the C9 witness. -/
def c9st : AppState := { docs := [c9doc], cands := [], ledger := [] }

/-- C9 witness: at a concrete request for the unavailable `ollama`
backend, both endpoints answer HTTP 500 with the swallowed 400 message
inside. -/
theorem requested_unavailable_provider_returns_500_witness :
    extract_transactions true 0 (some "ollama") (fun _ => "m") (fun _ => false)
        ⟨"mock", "Mock", "m"⟩ c9res =
      .error (500, "Extraction failed: 400: Provider 'ollama' is not available")
    ∧ (process_document c9st "d1" (some "ollama") (fun _ => "m") (fun _ => false)
        ⟨"mock", "Mock", "m"⟩ (.ok ()) c9res (fun _ => "P")).2 =
      .error (500, "Processing failed: 400: Provider 'ollama' is not available") := by
  have h := requested_unavailable_provider_returns_500 "ollama" (fun _ => "m")
    (fun _ => false) ⟨"mock", "Mock", "m"⟩ c9res c9st "d1" (fun _ => "P") c9doc
    rfl rfl (Or.inl rfl)
  exact ⟨h.1.trans rfl, h.2.1.trans rfl⟩
